import Mathlib

/-!
Verification of `src/collect_info.py`: a shallow embedding of the program's
data model and parsing routines, with theorems checking the specification's
claims. Network fetches are modelled by passing the fetched payloads as
inputs; every other step is translated from the source.
-/

/- ===================== Basic character utilities ===================== -/

/-- Python's whitespace test, as used by `\s` in `re` patterns over `str` and
by `str.strip()`: ASCII whitespace (including the file/group/record/unit
separators) plus the Unicode whitespace code points. -/
def isPySpace (c : Char) : Bool :=
  c.val = 32 || (9 ≤ c.val && c.val ≤ 13) || (28 ≤ c.val && c.val ≤ 31) ||
  c.val = 0x85 || c.val = 0xa0 || c.val = 0x1680 ||
  (0x2000 ≤ c.val && c.val ≤ 0x200a) || c.val = 0x2028 || c.val = 0x2029 ||
  c.val = 0x202f || c.val = 0x205f || c.val = 0x3000

/-- Python `str.strip()` on a character list: drop whitespace from both ends. -/
def pyStrip (l : List Char) : List Char :=
  ((l.dropWhile isPySpace).reverse.dropWhile isPySpace).reverse

/-- Python's `\d` digit test. (`re` additionally accepts non-ASCII Unicode
decimal digits; the version listings and dates handled here are ASCII.) -/
def isPyDigit (c : Char) : Bool := c.isDigit

/- ===================== Data model ===================== -/

/-- The sole domain record of the program (`@dataclass ReleaseInfo`,
src/collect_info.py:18): three optional text fields and the origin URL. -/
structure ReleaseInfo where
  version : Option String
  version_code : Option String
  release_date : Option String
  source : String
deriving DecidableEq

/-- The aggregator's result shape: `collect_all` (src/collect_info.py:302)
builds `generated_at` plus per-OS and per-browser `{stable, beta}` pairs,
keyed by the declared names. -/
structure Snapshot where
  generated_at : String
  operating_systems : List (String × (ReleaseInfo × ReleaseInfo))
  browsers : List (String × (ReleaseInfo × ReleaseInfo))
deriving DecidableEq

/-- `collect_all` (src/collect_info.py:302): assembles the snapshot from the
eleven fetcher results, each a `{stable, beta}` pair. The fetchers perform
network requests, so their results are inputs of the model; the timestamp is
likewise an input. -/
def collect_all (generated_at : String)
    (windows macos android ios ipados chrome firefox opera edge safari whale :
      ReleaseInfo × ReleaseInfo) : Snapshot :=
  { generated_at := generated_at
    operating_systems :=
      [("windows", windows), ("macos", macos), ("android", android),
       ("ios", ios), ("ipados", ipados)]
    browsers :=
      [("chrome", chrome), ("firefox", firefox), ("opera", opera),
       ("edge", edge), ("safari", safari), ("whale", whale)] }

/- ===================== JSON values and serialization ===================== -/

/-- The JSON value domain of the emitted document: `_serialize`
(src/collect_info.py:323) produces only objects, strings and nulls. -/
inductive Json where
  | null : Json
  | str : String → Json
  | obj : List (String × Json) → Json

/-- An optional text field as JSON: Python `None` renders as null. -/
def optJson : Option String → Json
  | none => Json.null
  | some s => Json.str s

/-- `asdict` on a `ReleaseInfo` (used by `_serialize`, src/collect_info.py:325):
the dataclass field order is preserved and `None` fields become null. -/
def releaseInfoToJson (r : ReleaseInfo) : Json :=
  Json.obj [("version", optJson r.version), ("version_code", optJson r.version_code),
            ("release_date", optJson r.release_date), ("source", Json.str r.source)]

/-- A fetcher's `{stable, beta}` pair as a JSON object. -/
def pairToJson (p : ReleaseInfo × ReleaseInfo) : Json :=
  Json.obj [("stable", releaseInfoToJson p.1), ("beta", releaseInfoToJson p.2)]

/-- `_serialize` (src/collect_info.py:323) applied to a snapshot: the nested
dictionaries with `ReleaseInfo` leaves converted to plain mappings. -/
def serialize (s : Snapshot) : Json :=
  Json.obj [("generated_at", Json.str s.generated_at),
            ("operating_systems",
              Json.obj (s.operating_systems.map (fun kv => (kv.1, pairToJson kv.2)))),
            ("browsers",
              Json.obj (s.browsers.map (fun kv => (kv.1, pairToJson kv.2))))]

/-- The keys of a JSON object, in order. -/
def objKeys : Json → List String
  | Json.obj fs => fs.map Prod.fst
  | _ => []

/-- Look up a key in a JSON object. -/
def objGet (j : Json) (k : String) : Option Json :=
  match j with
  | Json.obj fs => (fs.find? (fun kv => kv.1 = k)).map Prod.snd
  | _ => none

/- ===================== JSON rendering (json.dumps) ===================== -/

/-- Lower-case hexadecimal digit, as emitted by `json.dumps` escapes. -/
def hexDigitChar (n : Nat) : Char :=
  if n < 10 then Char.ofNat (48 + n) else Char.ofNat (87 + n)

/-- `json.dumps` escaping of one character with `ensure_ascii=False`: quote,
backslash and control characters are escaped (with the short forms for
backspace, form feed, newline, carriage return and tab), everything else is
emitted verbatim. -/
def escapeChar (c : Char) : List Char :=
  if c = '"' then ['\\', '"']
  else if c = '\\' then ['\\', '\\']
  else if c = '\n' then ['\\', 'n']
  else if c = '\t' then ['\\', 't']
  else if c = '\r' then ['\\', 'r']
  else if c.val = 8 then ['\\', 'b']
  else if c.val = 12 then ['\\', 'f']
  else if c.val < 32 then
    ['\\', 'u', '0', '0', hexDigitChar (c.toNat / 16), hexDigitChar (c.toNat % 16)]
  else [c]

/-- Escape every character of a string body. -/
def escapeList : List Char → List Char
  | [] => []
  | c :: cs => escapeChar c ++ escapeList cs

/-- A JSON string literal: quoted, escaped body. -/
def renderString (s : String) : List Char := '"' :: (escapeList s.data ++ ['"'])

mutual
/-- Compact JSON rendering of a value. (`json.dumps(..., indent=2)` inserts
only inter-token whitespace relative to this, which `json.loads` skips.) -/
def renderJson : Json → List Char
  | Json.null => ['n', 'u', 'l', 'l']
  | Json.str s => renderString s
  | Json.obj [] => ['{', '}']
  | Json.obj (f :: fs) => '{' :: (renderFields f fs ++ ['}'])
  termination_by j => sizeOf j
  decreasing_by all_goals simp_wf

/-- Render a nonempty field list, comma-separated. -/
def renderFields : (String × Json) → List (String × Json) → List Char
  | (k, v), [] => renderString k ++ ':' :: renderJson v
  | (k, v), f :: fs => renderString k ++ ':' :: renderJson v ++ ',' :: renderFields f fs
  termination_by f fs => 1 + sizeOf f + sizeOf fs
  decreasing_by all_goals (simp_wf <;> omega)
end

/- ===================== JSON parsing (json.loads) ===================== -/

/-- JSON inter-token whitespace. -/
def isWsJson (c : Char) : Bool := c = ' ' || c = '\t' || c = '\n' || c = '\r'

/-- Skip inter-token whitespace. -/
def skipWs (cs : List Char) : List Char := cs.dropWhile isWsJson

/-- Value of one hexadecimal digit. -/
def hexVal (c : Char) : Option Nat :=
  if '0' ≤ c ∧ c ≤ '9' then some (c.toNat - 48)
  else if 'a' ≤ c ∧ c ≤ 'f' then some (c.toNat - 87)
  else if 'A' ≤ c ∧ c ≤ 'F' then some (c.toNat - 55)
  else none

/-- Parse the remainder of a JSON string literal (after the opening quote) as
`json.loads` does: decode escapes until the closing quote, returning the
decoded characters and the rest of the input. -/
def parseStringBody : List Char → Option (List Char × List Char)
  | [] => none
  | c :: cs =>
    if c = '"' then some ([], cs)
    else if c = '\\' then
      match cs with
      | [] => none
      | e :: cs2 =>
        if e = '"' then (parseStringBody cs2).map (fun p => ('"' :: p.1, p.2))
        else if e = '\\' then (parseStringBody cs2).map (fun p => ('\\' :: p.1, p.2))
        else if e = '/' then (parseStringBody cs2).map (fun p => ('/' :: p.1, p.2))
        else if e = 'b' then (parseStringBody cs2).map (fun p => (Char.ofNat 8 :: p.1, p.2))
        else if e = 'f' then (parseStringBody cs2).map (fun p => (Char.ofNat 12 :: p.1, p.2))
        else if e = 'n' then (parseStringBody cs2).map (fun p => ('\n' :: p.1, p.2))
        else if e = 'r' then (parseStringBody cs2).map (fun p => ('\r' :: p.1, p.2))
        else if e = 't' then (parseStringBody cs2).map (fun p => ('\t' :: p.1, p.2))
        else if e = 'u' then
          match cs2 with
          | h1 :: h2 :: h3 :: h4 :: cs3 =>
            match hexVal h1, hexVal h2, hexVal h3, hexVal h4 with
            | some a, some b, some c3, some d =>
              (parseStringBody cs3).map
                (fun p => (Char.ofNat (((a * 16 + b) * 16 + c3) * 16 + d) :: p.1, p.2))
            | _, _, _, _ => none
          | _ => none
        else none
    else (parseStringBody cs).map (fun p => (c :: p.1, p.2))
  termination_by structural cs => cs

mutual
/-- `json.loads` value parsing, restricted to the null/string/object grammar
that the snapshot serializer emits; the fuel bounds recursion depth. -/
def parseValue : Nat → List Char → Option (Json × List Char)
  | 0, _ => none
  | fuel + 1, cs =>
    match skipWs cs with
    | 'n' :: 'u' :: 'l' :: 'l' :: rest => some (Json.null, rest)
    | '"' :: rest => (parseStringBody rest).map (fun p => (Json.str (String.mk p.1), p.2))
    | '{' :: rest =>
      match skipWs rest with
      | '}' :: r2 => some (Json.obj [], r2)
      | cs2 => parseFields fuel cs2 []
    | _ => none

/-- Parse the members of a nonempty JSON object, the opening brace and any
leading whitespace already consumed. -/
def parseFields : Nat → List Char → List (String × Json) → Option (Json × List Char)
  | 0, _, _ => none
  | fuel + 1, cs, acc =>
    match cs with
    | '"' :: rest =>
      match parseStringBody rest with
      | none => none
      | some (k, r1) =>
        match skipWs r1 with
        | ':' :: r2 =>
          match parseValue fuel r2 with
          | none => none
          | some (v, r3) =>
            match skipWs r3 with
            | ',' :: r4 => parseFields fuel (skipWs r4) (acc ++ [(String.mk k, v)])
            | '}' :: r4 => some (Json.obj (acc ++ [(String.mk k, v)]), r4)
            | _ => none
        | _ => none
    | _ => none
end

/-- `json.loads` on a whole document: the single parsed value, allowing only
trailing whitespace. -/
def parseJson (s : String) : Option Json :=
  match parseValue (s.data.length + 1) s.data with
  | some (j, rest) => if skipWs rest = [] then some j else none
  | none => none

/-- `json.dumps` of a value, as a string. -/
def renderJsonStr (j : Json) : String := String.mk (renderJson j)

mutual
/-- Structural size of a JSON value, used to discharge the parser fuel. -/
def jsize : Json → Nat
  | Json.null => 1
  | Json.str _ => 1
  | Json.obj fs => fsize fs + 1
  termination_by j => sizeOf j
  decreasing_by all_goals simp_wf

/-- Structural size of a JSON field list. -/
def fsize : List (String × Json) → Nat
  | [] => 1
  | (_, v) :: fs => jsize v + fsize fs + 1
  termination_by fs => sizeOf fs
  decreasing_by all_goals (simp_wf <;> omega)
end

/- ===================== Opera listing parsing ===================== -/

/-- Greedy `\\d+`: the maximal leading digit run and the rest. -/
def spanDigits (cs : List Char) : List Char × List Char :=
  (cs.takeWhile isPyDigit, cs.dropWhile isPyDigit)

/-- `re.match(r"(\\d+\\.\\d+(?:\\.\\d+){1,2})/?", href)` (src/collect_info.py:198):
the leading dotted numeric version of a link target. The pattern requires two
dot-separated digit runs plus one or two further `.digits` groups, so it
accepts exactly 3- or 4-component versions; the optional trailing slash lies
outside the capture group and never fails. -/
def matchVersion (cs : List Char) : Option (List Char) :=
  let (d1, r1) := spanDigits cs
  if d1 = [] then none else
  match r1 with
  | '.' :: r2 =>
    let (d2, r3) := spanDigits r2
    if d2 = [] then none else
    match r3 with
    | '.' :: r4 =>
      let (d3, r5) := spanDigits r4
      if d3 = [] then none else
      match r5 with
      | '.' :: r6 =>
        let (d4, _) := spanDigits r6
        if d4 = [] then some (d1 ++ '.' :: d2 ++ '.' :: d3)
        else some (d1 ++ '.' :: d2 ++ '.' :: d3 ++ '.' :: d4)
      | _ => some (d1 ++ '.' :: d2 ++ '.' :: d3)
    | _ => none
  | _ => none

/-- `\\d{4}-\\d{2}-\\d{2}` tried at one position. -/
def matchDateAt : List Char → Option (List Char)
  | a :: b :: c :: d :: '-' :: e :: f :: '-' :: g :: h :: _ =>
    if isPyDigit a && isPyDigit b && isPyDigit c && isPyDigit d &&
       isPyDigit e && isPyDigit f && isPyDigit g && isPyDigit h then
      some [a, b, c, d, '-', e, f, '-', g, h]
    else none
  | _ => none

/-- `re.search(r"(\\d{4}-\\d{2}-\\d{2})", row_text)` (src/collect_info.py:202):
the match at the leftmost position where one exists. -/
def searchDate : List Char → Option (List Char)
  | [] => none
  | c :: cs =>
    match matchDateAt (c :: cs) with
    | some d => some d
    | none => searchDate cs

/-- Python `str.split('.')` (fuel-driven for structural recursion). -/
def splitDotsF : Nat → List Char → List (List Char)
  | 0, _ => []
  | fuel + 1, cs =>
    match cs.dropWhile (fun c => ¬ c = '.') with
    | [] => [cs.takeWhile (fun c => ¬ c = '.')]
    | _ :: rest => cs.takeWhile (fun c => ¬ c = '.') :: splitDotsF fuel rest

/-- Python `str.split('.')`. -/
def splitDots (cs : List Char) : List (List Char) := splitDotsF (cs.length + 1) cs

/-- Python `int()` on a digit string. -/
def strToNat (cs : List Char) : Nat := cs.foldl (fun acc c => acc * 10 + (c.toNat - 48)) 0

/-- The sort key `[int(part) for part in version.split(".")]`
(src/collect_info.py:207). -/
def versionKey (v : List Char) : List Nat := (splitDots v).map strToNat

/-- Python `<` on lists of ints: lexicographic, a strict prefix is smaller. -/
def natListLt : List Nat → List Nat → Bool
  | [], [] => false
  | [], _ :: _ => true
  | _ :: _, [] => false
  | a :: as, b :: bs => if a < b then true else if b < a then false else natListLt as bs

/-- One step of a stable descending insertion sort: the new element goes in
front of the first kept element unless its key is strictly smaller. -/
def insertDesc (key : α → List Nat) (x : α) : List α → List α
  | [] => [x]
  | y :: ys => if natListLt (key x) (key y) then y :: insertDesc key x ys else x :: y :: ys

/-- `versions.sort(key=..., reverse=True)` (src/collect_info.py:207): Python
list sort is a stable sort, and with `reverse=True` it orders by strictly
descending key while preserving input order between equal keys; any stable
descending sort computes the identical list, here an insertion sort. -/
def sortVersionsDesc (l : List (List Char × Option (List Char))) :
    List (List Char × Option (List Char)) :=
  l.foldr (insertDesc (fun p => versionKey p.1)) []

/-- The `(version, date)` candidates gathered from the anchor list
(src/collect_info.py:196-204): links whose `href` matches the version pattern
contribute their captured version and the first ISO date of their row text. -/
def collectVersions (links : List (String × String)) :
    List (List Char × Option (List Char)) :=
  links.filterMap (fun link =>
    (matchVersion link.1.data).map (fun v => (v, searchDate link.2.data)))

/-- `_parse_opera_listing` (src/collect_info.py:192) with the network fetch
and HTML traversal factored out: the input lists, for each anchor of the page
in document order, its `href` attribute (`link.get("href", "")`) and its
parent row text (`link.parent.get_text(" ", strip=True)`). -/
def parse_opera_listing (links : List (String × String)) : Option String × Option String :=
  match sortVersionsDesc (collectVersions links) with
  | [] => (none, none)
  | (v, d) :: _ => (some (String.mk v), d.map String.mk)

/- ===================== Wikitext field extraction ===================== -/

/-- Backtracking driver for a greedy `\\s*`: try the continuation with `n`
characters dropped, then with ever shorter drops down to zero, taking the
first success (the regex engine prefers the longest whitespace run). -/
def tryDropsFrom (k : List Char → Option (List Char)) : Nat → List Char → Option (List Char)
  | 0, cs => k cs
  | n + 1, cs =>
    match k (cs.drop (n + 1)) with
    | some r => some r
    | none => tryDropsFrom k n cs

/-- Greedy `\\s*` followed by continuation `k`, with backtracking: the
maximal whitespace prefix is consumed first. -/
def wsStarThen (k : List Char → Option (List Char)) (cs : List Char) : Option (List Char) :=
  tryDropsFrom k (cs.takeWhile isPySpace).length cs

/-- `(.+)$` without DOTALL and with MULTILINE: one or more non-newline
characters; after the greedy maximal run the position is the end of input or
a newline, where `$` matches, so the capture is the maximal non-newline run
(failing only when it is empty). -/
def dotPlusToEol (cs : List Char) : Option (List Char) :=
  let b := cs.takeWhile (fun c => ¬ c = '\n')
  if b = [] then none else some b

/-- One attempt of `\\|\\s*key\\s*=\\s*(.+)$` at a line-start position
(the pattern of src/collect_info.py:56): the literal `|`, a backtracking
`\\s*`, the (re.escape'd, hence literal) key, a backtracking `\\s*`, the
literal `=`, then `\\s*(.+)$`; returns the captured group. -/
def matchFieldAt (key : List Char) (cs : List Char) : Option (List Char) :=
  match cs with
  | '|' :: cs1 =>
    wsStarThen (fun cs2 =>
      if key.isPrefixOf cs2 then
        wsStarThen (fun cs3 =>
          match cs3 with
          | '=' :: cs4 => wsStarThen dotPlusToEol cs4
          | _ => none) (cs2.drop key.length)
      else none) cs1
  | _ => none

/-- `re.search` with `re.MULTILINE` of the line-anchored field pattern
(src/collect_info.py:57): the pattern starts with `^`, so try it at the start
of the text and after each newline, leftmost first (fuel-driven recursion). -/
def searchFieldF (key : List Char) : Nat → List Char → Option (List Char)
  | 0, _ => none
  | fuel + 1, cs =>
    match matchFieldAt key cs with
    | some r => some r
    | none =>
      match cs.dropWhile (fun c => ¬ c = '\n') with
      | [] => none
      | _ :: rest => searchFieldF key fuel rest

/-- `re.search(rf"^\\|\\s*{re.escape(key)}\\s*=\\s*(.+)$", wikitext, re.MULTILINE)`. -/
def searchField (key : List Char) (cs : List Char) : Option (List Char) :=
  searchFieldF key (cs.length + 1) cs

/-- `_extract_wikitext_field` (src/collect_info.py:54): try the candidate
keys in order; the first key whose pattern matches yields
`match.group(1).strip()`. -/
def extract_wikitext_field (wikitext : String) : List String → Option String
  | [] => none
  | key :: keys =>
    match searchField key.data wikitext.data with
    | some r => some (String.mk (pyStrip r))
    | none => extract_wikitext_field wikitext keys

/- ===================== Wikitext cleaning ===================== -/

/-- Generic `re.sub(pattern, "", s)` scan: at each position try the matcher
(returning the match length); on a match emit nothing and jump past it,
otherwise emit the character and advance by one. Fuel equals the remaining
input length. -/
def subScan (m : List Char → Option Nat) : Nat → List Char → List Char
  | 0, _ => []
  | _, [] => []
  | fuel + 1, c :: cs =>
    match m (c :: cs) with
    | some n => subScan m fuel ((c :: cs).drop n)
    | none => c :: subScan m fuel cs

/-- One `re.sub(pattern, "", s)` pass with matcher `m`. -/
def applySub (m : List Char → Option Nat) (cs : List Char) : List Char :=
  subScan m cs.length cs

/-- The first index at which `</ref>` starts. -/
def findClose : List Char → Option Nat
  | [] => none
  | c :: cs =>
    if ("</ref>".data).isPrefixOf (c :: cs) then some 0
    else (findClose cs).map (· + 1)

/-- Matcher for `<ref[^>]*?>.*?</ref>` with DOTALL at one position
(src/collect_info.py:39): `<ref`, the shortest `>`-free run up to a `>`, then
the shortest run of any characters up to `</ref>`; returns the match length.
Non-greedy `[^>]*?>` coincides with the maximal `>`-free run since run and
terminator are disjoint, and `.*?` commits to the first `</ref>`. -/
def refBlockAt (cs : List Char) : Option Nat :=
  if ("<ref".data).isPrefixOf cs then
    match (cs.drop 4).dropWhile (fun c => ¬ c = '>') with
    | '>' :: body =>
      match findClose body with
      | some j => some (4 + ((cs.drop 4).takeWhile (fun c => ¬ c = '>')).length + 1 + j + 6)
      | none => none
    | _ => none
  else none

/-- Matcher for the self-closing `<ref[^/>]*/>` at one position
(src/collect_info.py:40). -/
def refSelfCloseAt (cs : List Char) : Option Nat :=
  if ("<ref".data).isPrefixOf cs then
    match (cs.drop 4).dropWhile (fun c => ¬ c = '/' ∧ ¬ c = '>') with
    | '/' :: '>' :: _ =>
      some (4 + ((cs.drop 4).takeWhile (fun c => ¬ c = '/' ∧ ¬ c = '>')).length + 2)
    | _ => none
  else none

/-- First `re.sub` pass of `_clean_wikitext`: remove `<ref ...>...</ref>`. -/
def subRefBlocks (cs : List Char) : List Char := applySub refBlockAt cs

/-- Second `re.sub` pass of `_clean_wikitext`: remove `<ref .../>`. -/
def subRefSelf (cs : List Char) : List Char := applySub refSelfCloseAt cs

/-- The suffix after the first occurrence of `pat` (everything dropped when
`pat` does not occur). -/
def dropAfterSub (pat : List Char) : List Char → List Char
  | [] => []
  | c :: cs => if pat.isPrefixOf (c :: cs) then (c :: cs).drop pat.length else dropAfterSub pat cs

/-- The characters before the first occurrence of `pat` (all of them when
`pat` does not occur). -/
def takeUntilSub (pat : List Char) : List Char → List Char
  | [] => []
  | c :: cs => if pat.isPrefixOf (c :: cs) then [] else c :: takeUntilSub pat cs

/-- The part after the first `|`, or the whole list when there is none (the
display text of a wiki link). -/
def afterFirstBar (l : List Char) : List Char :=
  if '|' ∈ l then (l.dropWhile (fun c => ¬ c = '|')).drop 1 else l

/-- Modelled from the spec: `mwparserfromhell.parse(value).strip_code()`
(src/collect_info.py:41) is a third-party library call whose code is not part
of this repository; per spec section 4.3 it strips the remaining wiki markup
(links, templates, formatting) down to plain text. The model removes
`{{...}}` template invocations, keeps the display text of `[[..|..]]` links
and the target of `[[..]]` links, drops `''` quote formatting, and passes all
other text through unchanged; its output is a subsequence of its input. -/
def strip_code : Nat → List Char → List Char
  | 0, _ => []
  | _, [] => []
  | fuel + 1, c :: cs =>
    if ("\x7b\x7b".data).isPrefixOf (c :: cs) then
      strip_code fuel (dropAfterSub ("\x7d\x7d".data) (cs.drop 1))
    else if ("[[".data).isPrefixOf (c :: cs) then
      afterFirstBar (takeUntilSub ("]]".data) (cs.drop 1)) ++
        strip_code fuel (dropAfterSub ("]]".data) (cs.drop 1))
    else if ("''".data).isPrefixOf (c :: cs) then
      strip_code fuel (cs.drop 1)
    else
      c :: strip_code fuel cs

/-- `_clean_wikitext` (src/collect_info.py:38): remove full `<ref>` blocks,
remove self-closing `<ref/>` tags, strip the remaining wiki markup, and trim
surrounding whitespace. -/
def clean_wikitext (value : String) : String :=
  let afterRefs := subRefSelf (subRefBlocks value.data)
  String.mk (pyStrip (strip_code (afterRefs.length + 1) afterRefs))

/- ===================== Wiki date parsing ===================== -/

/-- A digit character's value. -/
def dval (c : Char) : Nat := c.toNat - 48

/-- `\d{1,2}\|`: greedily two digits followed by `|`, else one digit followed
by `|` (the backtracking of the month group of the start-date pattern). -/
def parseOneTwo : List Char → Option (Nat × List Char)
  | a :: rest1 =>
    if isPyDigit a then
      match rest1 with
      | b :: rest2 =>
        if isPyDigit b then
          match rest2 with
          | '|' :: rest3 => some (10 * dval a + dval b, rest3)
          | _ => none
        else if b = '|' then some (dval a, rest2)
        else none
      | [] => none
    else none
  | [] => none

/-- Trailing `\d{1,2}`: greedily two digits, else one. -/
def parseDay : List Char → Option Nat
  | a :: b :: _ =>
    if isPyDigit a then
      if isPyDigit b then some (10 * dval a + dval b) else some (dval a)
    else none
  | [a] => if isPyDigit a then some (dval a) else none
  | [] => none

/-- `\{\{Start date\|(\d{4})\|(\d{1,2})\|(\d{1,2})` tried at one position
(src/collect_info.py:46): the literal template opener, a four-digit year, the
month group, the day group. -/
def startDateAt (cs : List Char) : Option (List Char × Nat × Nat) :=
  if ("\x7b\x7bStart date|".data).isPrefixOf cs then
    match cs.drop 13 with
    | y1 :: y2 :: y3 :: y4 :: '|' :: rest =>
      if isPyDigit y1 && isPyDigit y2 && isPyDigit y3 && isPyDigit y4 then
        match parseOneTwo rest with
        | some (m, rest2) =>
          match parseDay rest2 with
          | some d => some ([y1, y2, y3, y4], m, d)
          | none => none
        | none => none
      else none
    | _ => none
  else none

/-- `re.search` of the start-date pattern: leftmost position first. -/
def searchStartDateF : Nat → List Char → Option (List Char × Nat × Nat)
  | 0, _ => none
  | fuel + 1, cs =>
    match startDateAt cs with
    | some r => some r
    | none =>
      match cs with
      | [] => none
      | _ :: rest => searchStartDateF fuel rest

/-- `re.search(r"\{\{Start date\|(\d{4})\|(\d{1,2})\|(\d{1,2})", value)`. -/
def searchStartDate (cs : List Char) : Option (List Char × Nat × Nat) :=
  searchStartDateF (cs.length + 1) cs

/-- Python `f"{n:02d}"` for a natural number. -/
def pad2 (n : Nat) : List Char :=
  if n < 10 then '0' :: (Nat.repr n).data else (Nat.repr n).data

/-- `f"{year}-{int(month):02d}-{int(day):02d}"` (src/collect_info.py:49): the
year text verbatim, month and day zero-padded. -/
def formatStartDate (y : List Char) (m d : Nat) : String :=
  String.mk (y ++ '-' :: pad2 m ++ '-' :: pad2 d)

/-- `_parse_wiki_date` (src/collect_info.py:45): a start-date template match
is formatted directly; otherwise the cleaned text, or absent when empty
(`cleaned or None`). -/
def parse_wiki_date (value : String) : Option String :=
  match searchStartDate value.data with
  | some (y, m, d) => some (formatStartDate y m d)
  | none =>
    let cleaned := clean_wikitext value
    if cleaned = "" then none else some cleaned

/- ===================== Wikipedia fetcher core ===================== -/

/-- `_clean_wikitext(raw) if raw else None`: Python truthiness makes both the
absent and the empty raw value fall to `None`. -/
def truthyClean : Option String → Option String
  | some s => if s = "" then none else some (clean_wikitext s)
  | none => none

/-- `_parse_wiki_date(raw) if raw else None`. -/
def truthyParseDate : Option String → Option String
  | some s => if s = "" then none else parse_wiki_date s
  | none => none

/-- The `version_code` expression of `_from_wikipedia`
(src/collect_info.py:97-99): the cleaned code field when its raw value is
truthy, else the cleaned version field when truthy, else `None`. -/
def codeOrVersion (code_raw version_raw : Option String) : Option String :=
  match code_raw with
  | some s => if s = "" then truthyClean version_raw else some (clean_wikitext s)
  | none => truthyClean version_raw

/-- One channel's `ReleaseInfo` as built by `_from_wikipedia`
(src/collect_info.py:94-111). -/
def wikipediaChannel (wikitext : String) (page : String)
    (version_keys date_keys code_keys : List String) : ReleaseInfo :=
  let version_raw := extract_wikitext_field wikitext version_keys
  let date_raw := extract_wikitext_field wikitext date_keys
  let code_raw := extract_wikitext_field wikitext code_keys
  { version := truthyClean version_raw
    version_code := codeOrVersion code_raw version_raw
    release_date := truthyParseDate date_raw
    source := "https://en.wikipedia.org/wiki/" ++ page }

/-- `_from_wikipedia` (src/collect_info.py:77) with the wikitext fetch as an
input (the `stable_code_keys or []` default is the empty key list): the
`{stable, beta}` pair of records. -/
def from_wikipedia (wikitext : String) (page : String)
    (stable_version_keys stable_date_keys beta_version_keys beta_date_keys : List String)
    (stable_code_keys beta_code_keys : List String) : ReleaseInfo × ReleaseInfo :=
  (wikipediaChannel wikitext page stable_version_keys stable_date_keys stable_code_keys,
   wikipediaChannel wikitext page beta_version_keys beta_date_keys beta_code_keys)

/- ===================== JSON-API fetchers (Chrome, Edge) ===================== -/

/-- Generic JSON values of the upstream HTTP APIs. -/
inductive JVal where
  | null : JVal
  | bool : Bool → JVal
  | num : Int → JVal
  | str : String → JVal
  | arr : List JVal → JVal
  | obj : List (String × JVal) → JVal

mutual
/-- Python `repr()` of a JSON-derived value (used by `str()` on containers);
string quoting is rendered without repr's escape refinements, which no
claim exercises. -/
def pyRepr : JVal → String
  | JVal.null => "None"
  | JVal.bool b => if b then "True" else "False"
  | JVal.num n => toString n
  | JVal.str s => "'" ++ s ++ "'"
  | JVal.arr xs => "[" ++ pyReprList xs ++ "]"
  | JVal.obj fs => "\x7b" ++ pyReprFields fs ++ "\x7d"
  termination_by v => sizeOf v
  decreasing_by all_goals simp_wf

/-- Comma-separated reprs of list elements. -/
def pyReprList : List JVal → String
  | [] => ""
  | [x] => pyRepr x
  | x :: xs => pyRepr x ++ ", " ++ pyReprList xs
  termination_by xs => sizeOf xs
  decreasing_by all_goals (simp_wf <;> omega)

/-- Comma-separated reprs of dict items. -/
def pyReprFields : List (String × JVal) → String
  | [] => ""
  | [(k, v)] => "'" ++ k ++ "': " ++ pyRepr v
  | (k, v) :: fs => "'" ++ k ++ "': " ++ pyRepr v ++ ", " ++ pyReprFields fs
  termination_by fs => sizeOf fs
  decreasing_by all_goals (simp_wf <;> omega)
end

/-- Python `str()` of a JSON-derived value: strings verbatim, `None` for
null, repr otherwise. -/
def pyStrVal : JVal → String
  | JVal.str s => s
  | v => pyRepr v

/-- `str(entry.get(key))`: the literal text `None` when the key is missing
or holds JSON null. -/
def pyStr : Option JVal → String
  | none => "None"
  | some v => pyStrVal v

/-- `dict.get(key)` on a JSON object. -/
def jGet (entry : JVal) (k : String) : Option JVal :=
  match entry with
  | JVal.obj fs => (fs.find? (fun kv => kv.1 = k)).map Prod.snd
  | _ => none

/-- `entry.get(k)` used as an optional text field: the APIs supply strings
here; a missing key or JSON null is absent. (Python would store a value of
another type as-is; the model keeps the field at its string type.) -/
def jGetStr (entry : JVal) (k : String) : Option String :=
  match jGet entry k with
  | some (JVal.str s) => some s
  | _ => none

/-- Whether a JSON value is an object (a Python dict). -/
def isJObj : JVal → Bool
  | JVal.obj _ => true
  | _ => false

/-- One channel of `fetch_chrome` (src/collect_info.py:115-126) with the
fetched payload as input. `entry = data[0]` raises unless the payload is a
non-empty list, and `.get` raises unless the entry is a dict; an exception is
`none`. `version_code` is `str(entry.get("milestone"))`. -/
def fetch_chrome_channel (channel : String) (data : JVal) : Option ReleaseInfo :=
  match data with
  | JVal.arr (entry :: _) =>
    match entry with
    | JVal.obj _ =>
      some { version := jGetStr entry "version"
             version_code := some (pyStr (jGet entry "milestone"))
             release_date :=
               jGetStr entry (if channel = "Stable" then "stable_date" else "beta_date")
             source := "https://chromiumdash.appspot.com/fetch_milestones" }
    | _ => none
  | _ => none

/-- `fetch_chrome` (src/collect_info.py:114): the stable and beta payloads
come from two separate requests. -/
def fetch_chrome (stableData betaData : JVal) : Option (ReleaseInfo × ReleaseInfo) :=
  match fetch_chrome_channel "Stable" stableData, fetch_chrome_channel "Beta" betaData with
  | some s, some b => some (s, b)
  | _, _ => none

/-- `next((p for p in data if p.get("Product") == f"Microsoft Edge {name}"), None)`
(src/collect_info.py:163-170): `some none` when no product matches, `none`
when a non-dict element raises before a match. A non-string `Product` value
never equals the name. -/
def findProduct (name : String) : List JVal → Option (Option JVal)
  | [] => some none
  | p :: ps =>
    match p with
    | JVal.obj _ =>
      match jGet p "Product" with
      | some (JVal.str s) => if s = name then some (some p) else findProduct name ps
      | _ => findProduct name ps
    | _ => none

/-- Python `<` on strings: code-point lexicographic comparison. -/
def strLtb : List Char → List Char → Bool
  | [], [] => false
  | [], _ :: _ => true
  | _ :: _, [] => false
  | a :: as, b :: bs => if a < b then true else if b < a then false else strLtb as bs

/-- `item.get("PublishedTime", "")`, the `max` key (src/collect_info.py:181). -/
def pubKey (item : JVal) : String :=
  match jGet item "PublishedTime" with
  | some (JVal.str s) => s
  | _ => ""

/-- Python `max(releases, key=...)`: `none` (ValueError) on an empty
sequence, else the first element with the maximal key — an item replaces the
running maximum only when its key is strictly greater. -/
def maxByPublishedTime (releases : List JVal) : Option JVal :=
  match releases with
  | [] => none
  | x :: xs =>
    some (xs.foldl (fun best item =>
      if strLtb (pubKey best).data (pubKey item).data then item else best) x)

/-- `channel_data.get("Releases", [])` prepared for iteration
(src/collect_info.py:179-182): a missing key defaults to the empty list;
a non-list value raises when iterated. -/
def edgeReleases (cd : JVal) : Option (List JVal) :=
  match jGet cd "Releases" with
  | some (JVal.arr xs) => some xs
  | none => some []
  | some _ => none

/-- The `ReleaseInfo` built from a found Edge channel product
(src/collect_info.py:179-188): the release with the greatest publish time;
`max` of the empty release list raises, as does `.get` on a non-dict
release. -/
def edgeFromProduct (cd : JVal) : Option ReleaseInfo :=
  match edgeReleases cd with
  | none => none
  | some xs =>
    if xs.all isJObj then
      match maxByPublishedTime xs with
      | none => none
      | some release =>
        some { version := jGetStr release "ProductVersion"
               version_code := some (pyStr (jGet release "ReleaseId"))
               release_date := jGetStr release "PublishedTime"
               source := "https://edgeupdates.microsoft.com/api/products?view=enterprise" }
    else none

/-- One channel of `fetch_edge` (src/collect_info.py:162-188). A missing
channel product yields the all-absent placeholder record (the falsy test
`if not channel_data` cannot fire on a found product, which holds at least
its `Product` key). -/
def fetch_edge_channel (products : List JVal) (channelName : String) : Option ReleaseInfo :=
  match findProduct ("Microsoft Edge " ++ channelName) products with
  | none => none
  | some none =>
    some { version := none, version_code := none, release_date := none,
           source := "https://edgeupdates.microsoft.com/api/products?view=enterprise" }
  | some (some channel_data) => edgeFromProduct channel_data

/-- `fetch_edge` (src/collect_info.py:159): both channels search the same
fetched product list. -/
def fetch_edge (data : JVal) : Option (ReleaseInfo × ReleaseInfo) :=
  match data with
  | JVal.arr products =>
    match fetch_edge_channel products "Stable", fetch_edge_channel products "Beta" with
    | some s, some b => some (s, b)
    | _, _ => none
  | _ => none

/- ===================== Ref well-formedness (for C5) ===================== -/

/-- Whether `pat` occurs in the list as a contiguous substring. -/
def containsSub (pat : List Char) : List Char → Bool
  | [] => pat.isEmpty
  | c :: cs => pat.isPrefixOf (c :: cs) || containsSub pat cs

/-- Field values in which every `<` begins a well-formed ref: a full
`<ref attrs>body</ref>` block whose attributes contain no `<` or `>` and
whose body contains no `<`, or a self-closing `<ref attrs/>` whose
attributes contain no `<`, `>` or `/`; every other character is not `<`. -/
inductive RefGood : List Char → Prop where
  | nil : RefGood []
  | chr {c : Char} {cs : List Char} : ¬ c = '<' → RefGood cs → RefGood (c :: cs)
  | blk {attrs body cs : List Char} :
      (∀ x ∈ attrs, ¬ x = '<' ∧ ¬ x = '>') → (∀ x ∈ body, ¬ x = '<') → RefGood cs →
      RefGood ("<ref".data ++ attrs ++ '>' :: body ++ "</ref>".data ++ cs)
  | slf {attrs cs : List Char} :
      (∀ x ∈ attrs, ¬ x = '<' ∧ ¬ x = '>' ∧ ¬ x = '/') → RefGood cs →
      RefGood ("<ref".data ++ attrs ++ '/' :: '>' :: cs)

/-- The shape left by the first `re.sub` pass: every `<` begins a
well-formed self-closing ref. -/
inductive SelfGood : List Char → Prop where
  | nil : SelfGood []
  | chr {c : Char} {cs : List Char} : ¬ c = '<' → SelfGood cs → SelfGood (c :: cs)
  | slf {attrs cs : List Char} :
      (∀ x ∈ attrs, ¬ x = '<' ∧ ¬ x = '>' ∧ ¬ x = '/') → SelfGood cs →
      SelfGood ("<ref".data ++ attrs ++ '/' :: '>' :: cs)

/- (further definitions are inserted above this marker) -/

/- ===================== Theorems ===================== -/

/- ---- JSON round-trip (json.loads after json.dumps) ---- -/

theorem string_mk_data (s : String) : String.mk s.data = s := by cases s; rfl

theorem skipWs_cons (c : Char) (cs : List Char) (h : isWsJson c = false) :
    skipWs (c :: cs) = c :: cs := by
  simp [skipWs, List.dropWhile, h]

theorem hexVal_hexDigitChar : ∀ m : Nat, m < 16 → hexVal (hexDigitChar m) = some m := by decide

theorem jsize_pos (j : Json) : 1 ≤ jsize j := by
  cases j <;> simp [jsize]

theorem fsize_pos (fs : List (String × Json)) : 1 ≤ fsize fs := by
  cases fs with
  | nil => simp [fsize]
  | cons f fs => obtain ⟨k, v⟩ := f; simp [fsize]

theorem parseStringBody_escapeChar (c : Char) (rest : List Char) :
    parseStringBody (escapeChar c ++ rest) =
      (parseStringBody rest).map (fun p => (c :: p.1, p.2)) := by
  by_cases h1 : c = '"'
  · subst h1
    simp only [escapeChar, ite_true, List.cons_append, List.nil_append, if_true]
    rw [parseStringBody.eq_def]
    simp
  by_cases h2 : c = '\\'
  · subst h2
    simp only [escapeChar, List.cons_append, List.nil_append]
    rw [parseStringBody.eq_def]
    simp
  by_cases h3 : c = '\n'
  · subst h3
    simp only [escapeChar, List.cons_append, List.nil_append]
    rw [parseStringBody.eq_def]
    simp
  by_cases h4 : c = '\t'
  · subst h4
    simp only [escapeChar, List.cons_append, List.nil_append]
    rw [parseStringBody.eq_def]
    simp
  by_cases h5 : c = '\r'
  · subst h5
    simp only [escapeChar, List.cons_append, List.nil_append]
    rw [parseStringBody.eq_def]
    simp
  by_cases h6 : c.val = 8
  · have hc : c = '\x08' := Char.ext (by rw [h6]; rfl)
    subst hc
    simp only [escapeChar, List.cons_append, List.nil_append]
    rw [parseStringBody.eq_def]
    simp
  by_cases h7 : c.val = 12
  · have hc : c = '\x0c' := Char.ext (by rw [h7]; rfl)
    subst hc
    simp only [escapeChar, List.cons_append, List.nil_append]
    rw [parseStringBody.eq_def]
    simp
  by_cases h8 : c.val < 32
  · have hlt : c.toNat < 32 := by
      have h8n : c.val.toNat < (32 : UInt32).toNat := h8
      simpa using h8n
    have hdiv : c.toNat / 16 < 16 := by omega
    have hmod : c.toNat % 16 < 16 := Nat.mod_lt _ (by norm_num)
    have e1 : hexVal (hexDigitChar (c.toNat / 16)) = some (c.toNat / 16) :=
      hexVal_hexDigitChar _ hdiv
    have e2 : hexVal (hexDigitChar (c.toNat % 16)) = some (c.toNat % 16) :=
      hexVal_hexDigitChar _ hmod
    have hval : ((0 * 16 + 0) * 16 + c.toNat / 16) * 16 + c.toNat % 16 = c.toNat := by
      omega
    simp only [escapeChar, h1, h2, h3, h4, h5, h6, h7, h8, if_true, if_false,
      ite_true, ite_false, List.cons_append, List.nil_append]
    rw [parseStringBody.eq_def]
    have hz : hexVal '0' = some 0 := by decide
    have hval2 : c.toNat / 16 * 16 + c.toNat % 16 = c.toNat := by omega
    simp [e1, e2, hz, hval2, Char.ofNat_toNat]
  · simp only [escapeChar, h1, h2, h3, h4, h5, h6, h7, h8, if_false, ite_false,
      List.cons_append, List.nil_append]
    rw [parseStringBody.eq_def]
    simp [h1, h2]

theorem parseStringBody_escapeList (l : List Char) (rest : List Char) :
    parseStringBody (escapeList l ++ '"' :: rest) = some (l, rest) := by
  induction l with
  | nil =>
    rw [escapeList, List.nil_append, parseStringBody.eq_def]
    simp
  | cons c cs ih =>
    rw [escapeList, List.append_assoc, parseStringBody_escapeChar, ih]
    rfl

theorem renderFields_head (k : String) (v : Json) (fs : List (String × Json)) :
    ∃ t, renderFields (k, v) fs = '"' :: t := by
  cases fs with
  | nil => exact ⟨escapeList k.data ++ ['"'] ++ ':' :: renderJson v, by
      simp [renderFields, renderString]⟩
  | cons f fs => exact ⟨escapeList k.data ++ ['"'] ++ ':' :: renderJson v ++
      ',' :: renderFields f fs, by simp [renderFields, renderString]⟩

theorem parse_render_aux : ∀ fuel : Nat,
    (∀ (j : Json) (rest : List Char), jsize j ≤ fuel →
      parseValue fuel (renderJson j ++ rest) = some (j, rest)) ∧
    (∀ (k : String) (v : Json) (fs : List (String × Json)) (acc : List (String × Json))
        (rest : List Char), fsize ((k, v) :: fs) ≤ fuel →
      parseFields fuel (renderFields (k, v) fs ++ '}' :: rest) acc =
        some (Json.obj (acc ++ (k, v) :: fs), rest)) := by
  intro fuel
  induction fuel with
  | zero =>
    constructor
    · intro j rest h
      exact absurd h (by have := jsize_pos j; omega)
    · intro k v fs acc rest h
      exact absurd h (by have := fsize_pos ((k, v) :: fs); omega)
  | succ fuel ih =>
    obtain ⟨ihV, ihF⟩ := ih
    constructor
    · intro j rest hj
      cases j with
      | null =>
        rw [show renderJson Json.null = ['n', 'u', 'l', 'l'] from by simp [renderJson]]
        rw [parseValue.eq_2]
        rw [show skipWs (['n', 'u', 'l', 'l'] ++ rest) = 'n' :: 'u' :: 'l' :: 'l' :: rest
            from skipWs_cons _ _ (by decide)]
        rfl
      | str s =>
        rw [show renderJson (Json.str s) ++ rest =
            '"' :: (escapeList s.data ++ '"' :: rest) from by
          simp [renderJson, renderString]]
        rw [parseValue.eq_2]
        rw [show skipWs ('"' :: (escapeList s.data ++ '"' :: rest)) =
            '"' :: (escapeList s.data ++ '"' :: rest) from skipWs_cons _ _ (by decide)]
        simp [parseStringBody_escapeList, string_mk_data]
      | obj fs =>
        cases fs with
        | nil =>
          rw [show renderJson (Json.obj []) ++ rest = '{' :: '}' :: rest from by
            simp [renderJson]]
          rw [parseValue.eq_2]
          rw [show skipWs ('{' :: '}' :: rest) = '{' :: '}' :: rest from
            skipWs_cons _ _ (by decide)]
          have h2 : skipWs ('}' :: rest) = '}' :: rest := skipWs_cons _ _ (by decide)
          simp [h2]
        | cons f fs =>
          obtain ⟨k, v⟩ := f
          have hsz : fsize ((k, v) :: fs) ≤ fuel := by
            simp [jsize] at hj; omega
          obtain ⟨t, ht⟩ := renderFields_head k v fs
          have hres : parseFields fuel ('"' :: (t ++ '}' :: rest)) [] =
              some (Json.obj ((k, v) :: fs), rest) := by
            have h := ihF k v fs [] rest hsz
            rw [ht] at h
            simpa using h
          have hswq : skipWs ('"' :: (t ++ '}' :: rest)) = '"' :: (t ++ '}' :: rest) :=
            skipWs_cons _ _ (by decide)
          rw [show renderJson (Json.obj ((k, v) :: fs)) ++ rest =
              '{' :: ('"' :: (t ++ '}' :: rest)) from by
            simp [renderJson, ht]]
          rw [parseValue.eq_2]
          rw [show skipWs ('{' :: ('"' :: (t ++ '}' :: rest))) =
              '{' :: ('"' :: (t ++ '}' :: rest)) from skipWs_cons _ _ (by decide)]
          simp [hswq, hres]
    · intro k v fs acc rest hf
      cases fs with
      | nil =>
        have hv : jsize v ≤ fuel := by
          simp [fsize] at hf; omega
        have hpsb : parseStringBody (escapeList k.data ++ '"' ::
            (':' :: (renderJson v ++ '}' :: rest))) =
            some (k.data, ':' :: (renderJson v ++ '}' :: rest)) :=
          parseStringBody_escapeList _ _
        have hsw1 : skipWs (':' :: (renderJson v ++ '}' :: rest)) =
            ':' :: (renderJson v ++ '}' :: rest) := skipWs_cons _ _ (by decide)
        have hval := ihV v ('}' :: rest) hv
        have hsw2 : skipWs ('}' :: rest) = '}' :: rest := skipWs_cons _ _ (by decide)
        rw [show renderFields (k, v) [] ++ '}' :: rest =
            '"' :: (escapeList k.data ++ '"' :: (':' :: (renderJson v ++ '}' :: rest)))
            from by simp [renderFields, renderString]]
        rw [parseFields.eq_2]
        simp [hpsb, hsw1, hval, hsw2, string_mk_data]
      | cons f2 fs2 =>
        obtain ⟨k2, v2⟩ := f2
        have hv : jsize v ≤ fuel := by
          have h1 := fsize_pos ((k2, v2) :: fs2)
          simp [fsize] at hf; omega
        have hf2 : fsize ((k2, v2) :: fs2) ≤ fuel := by
          have h1 := jsize_pos v
          simp [fsize] at hf ⊢; omega
        obtain ⟨t, ht⟩ := renderFields_head k2 v2 fs2
        have hpsb : parseStringBody (escapeList k.data ++ '"' ::
            (':' :: (renderJson v ++ ',' :: ('"' :: (t ++ '}' :: rest))))) =
            some (k.data, ':' :: (renderJson v ++ ',' :: ('"' :: (t ++ '}' :: rest)))) :=
          parseStringBody_escapeList _ _
        have hsw1 : skipWs (':' :: (renderJson v ++ ',' :: ('"' :: (t ++ '}' :: rest)))) =
            ':' :: (renderJson v ++ ',' :: ('"' :: (t ++ '}' :: rest))) :=
          skipWs_cons _ _ (by decide)
        have hval := ihV v (',' :: ('"' :: (t ++ '}' :: rest))) hv
        have hswc : skipWs (',' :: ('"' :: (t ++ '}' :: rest))) =
            ',' :: ('"' :: (t ++ '}' :: rest)) := skipWs_cons _ _ (by decide)
        have hswq : skipWs ('"' :: (t ++ '}' :: rest)) = '"' :: (t ++ '}' :: rest) :=
          skipWs_cons _ _ (by decide)
        have hres : parseFields fuel ('"' :: (t ++ '}' :: rest)) (acc ++ [(k, v)]) =
            some (Json.obj ((acc ++ [(k, v)]) ++ (k2, v2) :: fs2), rest) := by
          have h := ihF k2 v2 fs2 (acc ++ [(k, v)]) rest hf2
          rw [ht] at h
          simpa using h
        rw [show renderFields (k, v) ((k2, v2) :: fs2) ++ '}' :: rest =
            '"' :: (escapeList k.data ++ '"' :: (':' :: (renderJson v ++
              ',' :: ('"' :: (t ++ '}' :: rest))))) from by
          simp [renderFields, renderString, ht]]
        rw [parseFields.eq_2]
        simp [hpsb, hsw1, hval, hswc, hswq, hres, string_mk_data]

mutual
theorem jsize_le_render : ∀ j : Json, jsize j ≤ (renderJson j).length + 1
  | Json.null => by simp [jsize, renderJson]
  | Json.str s => by simp [jsize, renderJson]
  | Json.obj [] => by simp [jsize, fsize, renderJson]
  | Json.obj (f :: fs) => by
    have h := fsize_le_render f fs
    simp [jsize, renderJson]
    omega
  termination_by j => sizeOf j
  decreasing_by all_goals simp_wf

theorem fsize_le_render : ∀ (f : String × Json) (fs : List (String × Json)),
    fsize (f :: fs) ≤ (renderFields f fs).length + 2
  | (k, v), [] => by
    have h := jsize_le_render v
    simp [fsize, renderFields, renderString]
    omega
  | (k, v), f2 :: fs2 => by
    have h1 := jsize_le_render v
    have h2 := fsize_le_render f2 fs2
    simp [fsize, renderFields, renderString]
    omega
  termination_by f fs => 1 + sizeOf f + sizeOf fs
  decreasing_by all_goals (simp_wf <;> omega)
end

theorem parseJson_renderJson (j : Json) : parseJson (renderJsonStr j) = some j := by
  unfold parseJson renderJsonStr
  have hdata : (String.mk (renderJson j)).data = renderJson j := rfl
  rw [hdata]
  have hfuel : jsize j ≤ (renderJson j).length + 1 := jsize_le_render j
  have h := (parse_render_aux ((renderJson j).length + 1)).1 j [] hfuel
  rw [List.append_nil] at h
  rw [h]
  simp [skipWs]

/-- C9: serializing a Snapshot (converting `ReleaseInfo` records to plain
mappings and rendering JSON) and then parsing the JSON back yields a mapping
structurally identical to the serialized form, with null fields preserved and
no keys omitted. -/
theorem serialize_roundtrip (s : Snapshot) :
    parseJson (renderJsonStr (serialize s)) = some (serialize s) :=
  parseJson_renderJson (serialize s)

/- ---- C1: snapshot key structure ---- -/

theorem objGet_mem {fs : List (String × Json)} {k : String} {j : Json}
    (h : objGet (Json.obj fs) k = some j) : ∃ kv ∈ fs, kv.2 = j := by
  simp only [objGet, Option.map_eq_some'] at h
  obtain ⟨kv, hfind, hsnd⟩ := h
  exact ⟨kv, List.mem_of_find?_eq_some hfind, hsnd⟩

/-- C1: the serialized snapshot produced by the aggregator always has exactly
the five declared operating-system keys and the six declared browser keys, in
order, and every value under those keys is an object with exactly the two
sub-keys `stable` and `beta`, regardless of the `ReleaseInfo` field contents. -/
theorem collect_all_keys (generated_at : String)
    (windows macos android ios ipados chrome firefox opera edge safari whale :
      ReleaseInfo × ReleaseInfo) :
    let snap := serialize (collect_all generated_at windows macos android ios ipados
      chrome firefox opera edge safari whale)
    objKeys snap = ["generated_at", "operating_systems", "browsers"] ∧
    (∃ os, objGet snap "operating_systems" = some os ∧
      objKeys os = ["windows", "macos", "android", "ios", "ipados"] ∧
      (∀ k j, objGet os k = some j → objKeys j = ["stable", "beta"])) ∧
    (∃ br, objGet snap "browsers" = some br ∧
      objKeys br = ["chrome", "firefox", "opera", "edge", "safari", "whale"] ∧
      (∀ k j, objGet br k = some j → objKeys j = ["stable", "beta"])) := by
  refine ⟨?_,
    ⟨Json.obj [("windows", pairToJson windows), ("macos", pairToJson macos),
      ("android", pairToJson android), ("ios", pairToJson ios),
      ("ipados", pairToJson ipados)], ?_, ?_, ?_⟩,
    ⟨Json.obj [("chrome", pairToJson chrome), ("firefox", pairToJson firefox),
      ("opera", pairToJson opera), ("edge", pairToJson edge),
      ("safari", pairToJson safari), ("whale", pairToJson whale)], ?_, ?_, ?_⟩⟩
  · simp [serialize, collect_all, objKeys]
  · simp [serialize, collect_all, objGet]
  · simp [objKeys]
  · intro k j h
    obtain ⟨kv, hmem, rfl⟩ := objGet_mem h
    simp only [List.mem_cons, List.not_mem_nil, or_false] at hmem
    rcases hmem with h | h | h | h | h <;> rw [h]  <;> rfl
  · simp [serialize, collect_all, objGet]
  · simp [objKeys]
  · intro k j h
    obtain ⟨kv, hmem, rfl⟩ := objGet_mem h
    simp only [List.mem_cons, List.not_mem_nil, or_false] at hmem
    rcases hmem with h | h | h | h | h | h <;> rw [h]  <;> rfl

/- ---- C2/C7: Opera listing parser ---- -/

theorem natListLt_irrefl : ∀ a : List Nat, natListLt a a = false := by
  intro a
  induction a with
  | nil => rfl
  | cons x xs ih => simp [natListLt, ih]

theorem natListLt_asymm : ∀ a b : List Nat, natListLt a b = true → natListLt b a = false := by
  intro a
  induction a with
  | nil =>
    intro b h
    cases b with
    | nil => simp [natListLt] at h
    | cons y ys => simp [natListLt]
  | cons x xs ih =>
    intro b h
    cases b with
    | nil => simp [natListLt] at h
    | cons y ys =>
      simp only [natListLt] at h ⊢
      by_cases hxy : x < y
      · simp [hxy, Nat.lt_asymm hxy, Nat.ne_of_gt hxy]
      · by_cases hyx : y < x
        · simp [hxy, hyx] at h
        · have hxy' : ¬ y < x := hyx
          simp [hxy, hyx] at h ⊢
          exact ih ys h

theorem natListLt_false_trans :
    ∀ a b c : List Nat, natListLt a b = false → natListLt b c = false →
      natListLt a c = false := by
  intro a
  induction a with
  | nil =>
    intro b c hab hbc
    cases b with
    | nil => exact hbc
    | cons y ys => simp [natListLt] at hab
  | cons x xs ih =>
    intro b c hab hbc
    cases b with
    | nil =>
      cases c with
      | nil => rfl
      | cons z zs => simp [natListLt] at hbc
    | cons y ys =>
      cases c with
      | nil => rfl
      | cons z zs =>
        simp only [natListLt] at hab hbc ⊢
        by_cases hxz : x < z
        · exfalso
          by_cases hxy : x < y
          · simp [hxy] at hab
          · by_cases hyz : y < z
            · simp [hyz] at hbc
            · omega
        · simp only [hxz, if_false, ite_false]
          by_cases hzx : z < x
          · simp [hzx]
          · simp only [hzx, if_false, ite_false]
            have hxy : ¬ x < y := by
              intro h; simp [h] at hab
            have hyz : ¬ y < z := by
              intro h; simp [h] at hbc
            have hyx : ¬ y < x := by omega
            have hzy : ¬ z < y := by omega
            have hab' : natListLt xs ys = false := by
              simpa [hxy, hyx] using hab
            have hbc' : natListLt ys zs = false := by
              simpa [hyz, hzy] using hbc
            exact ih ys zs hab' hbc'

theorem insertDesc_ne_nil (key : α → List Nat) (x : α) (l : List α) :
    insertDesc key x l ≠ [] := by
  cases l with
  | nil => simp [insertDesc]
  | cons y ys =>
    simp only [insertDesc]
    by_cases h : natListLt (key x) (key y) = true
    · simp [h]
    · simp [h]

theorem mem_insertDesc (key : α → List Nat) (x : α) (l : List α) (z : α) :
    z ∈ insertDesc key x l ↔ z = x ∨ z ∈ l := by
  induction l with
  | nil => simp [insertDesc]
  | cons y ys ih =>
    simp only [insertDesc]
    by_cases h : natListLt (key x) (key y) = true
    · simp only [h, if_true, List.mem_cons, ih]
      tauto
    · have h' : natListLt (key x) (key y) = false := by simpa using h
      simp [h', List.mem_cons, ih]

theorem mem_foldr_insertDesc (key : α → List Nat) (l : List α) (z : α) :
    z ∈ l.foldr (insertDesc key) [] ↔ z ∈ l := by
  induction l with
  | nil => simp
  | cons y ys ih => simp [List.foldr, mem_insertDesc, ih]

theorem foldr_insertDesc_head_max (key : α → List Nat) :
    ∀ (l : List α) (hd : α) (tl : List α), l.foldr (insertDesc key) [] = hd :: tl →
      hd ∈ l ∧ ∀ y ∈ l, natListLt (key hd) (key y) = false := by
  intro l
  induction l with
  | nil => intro hd tl h; simp at h
  | cons a l' ih =>
    intro hd tl h
    simp only [List.foldr] at h
    cases hs : l'.foldr (insertDesc key) [] with
    | nil =>
      rw [hs] at h
      simp only [insertDesc] at h
      injection h with h1 h2
      subst h1
      have hl' : l' = [] := by
        cases l' with
        | nil => rfl
        | cons b bs => exact absurd hs (insertDesc_ne_nil key b _)
      subst hl'
      refine ⟨by simp, ?_⟩
      intro y hy
      simp at hy
      subst hy
      exact natListLt_irrefl _
    | cons b t =>
      rw [hs] at h
      obtain ⟨hbmem, hbmax⟩ := ih b t hs
      simp only [insertDesc] at h
      by_cases hcmp : natListLt (key a) (key b) = true
      · rw [if_pos hcmp] at h
        injection h with h1 h2
        subst h1
        refine ⟨List.mem_cons_of_mem _ hbmem, ?_⟩
        intro y hy
        rcases List.mem_cons.mp hy with rfl | hy'
        · exact natListLt_asymm _ _ hcmp
        · exact hbmax y hy'
      · rw [if_neg hcmp] at h
        injection h with h1 h2
        subst h1
        refine ⟨List.mem_cons_self _ _, ?_⟩
        intro y hy
        rcases List.mem_cons.mp hy with rfl | hy'
        · exact natListLt_irrefl _
        · have hc' : natListLt (key a) (key b) = false := by simpa using hcmp
          exact natListLt_false_trans _ _ _ hc' (hbmax y hy')

/-- C2: whenever the candidate list collected from the listing is non-empty,
the Opera listing parser returns the pair whose version key (the dot-split
integer tuple) is maximal — the first element after the descending sort — and
on the spec's example listing it returns `("91.0.4516.20", "2023-09-10")`. -/
theorem parse_opera_listing_returns_max :
    (∀ links : List (String × String), collectVersions links ≠ [] →
      ∃ v d, parse_opera_listing links = (some (String.mk v), Option.map String.mk d) ∧
        (v, d) ∈ collectVersions links ∧
        ∀ p ∈ collectVersions links,
          natListLt (versionKey v) (versionKey p.1) = false) ∧
    parse_opera_listing
      [("90.0.4480.84/", "90.0.4480.84/ 2023-08-01 -"),
       ("91.0.4516.20/", "91.0.4516.20/ 2023-09-10 -")] =
      (some "91.0.4516.20", some "2023-09-10") := by
  constructor
  · intro links hne
    cases hs : sortVersionsDesc (collectVersions links) with
    | nil =>
      exfalso
      obtain ⟨z, hz⟩ := List.exists_mem_of_ne_nil _ hne
      have : z ∈ sortVersionsDesc (collectVersions links) :=
        (mem_foldr_insertDesc _ _ _).mpr hz
      rw [hs] at this
      exact absurd this (List.not_mem_nil z)
    | cons hd tl =>
      obtain ⟨hmem, hmax⟩ := foldr_insertDesc_head_max _ _ hd tl hs
      obtain ⟨v, d⟩ := hd
      refine ⟨v, d, ?_, hmem, fun p hp => hmax p hp⟩
      simp [parse_opera_listing, hs]
  · decide

/-- Witness for the general part of `parse_opera_listing_returns_max` at the
spec's example listing. -/
theorem parse_opera_listing_returns_max_witness :
    collectVersions
      [("90.0.4480.84/", "90.0.4480.84/ 2023-08-01 -"),
       ("91.0.4516.20/", "91.0.4516.20/ 2023-09-10 -")] ≠ [] ∧
    (∃ v d, parse_opera_listing
        [("90.0.4480.84/", "90.0.4480.84/ 2023-08-01 -"),
         ("91.0.4516.20/", "91.0.4516.20/ 2023-09-10 -")] =
          (some (String.mk v), Option.map String.mk d) ∧
      (v, d) ∈ collectVersions
        [("90.0.4480.84/", "90.0.4480.84/ 2023-08-01 -"),
         ("91.0.4516.20/", "91.0.4516.20/ 2023-09-10 -")] ∧
      ∀ p ∈ collectVersions
        [("90.0.4480.84/", "90.0.4480.84/ 2023-08-01 -"),
         ("91.0.4516.20/", "91.0.4516.20/ 2023-09-10 -")],
        natListLt (versionKey v) (versionKey p.1) = false) :=
  ⟨by decide, parse_opera_listing_returns_max.1 _ (by decide)⟩

/-- C7 counterexample: a two-component link target such as `90.1/` is not
accepted by the version pattern, so it is not collected as a candidate and an
all-two-component listing yields `(None, None)`. -/
theorem opera_two_component_skipped :
    matchVersion ("90.1/").data = none ∧
    collectVersions [("90.1/", "90.1/ 2023-01-01 -")] = [] ∧
    parse_opera_listing [("90.1/", "90.1/ 2023-01-01 -")] = (none, none) := by
  decide

theorem spanDigits_append (a : List Char) (c : Char) (X : List Char)
    (ha : ∀ x ∈ a, isPyDigit x = true) (hc : isPyDigit c = false) :
    spanDigits (a ++ c :: X) = (a, c :: X) := by
  unfold spanDigits
  induction a with
  | nil => simp [List.takeWhile, List.dropWhile, hc]
  | cons x xs ih =>
    have hx : isPyDigit x = true := ha x (List.mem_cons_self _ _)
    have ih' := ih (fun y hy => ha y (List.mem_cons_of_mem _ hy))
    simp only [List.cons_append, List.takeWhile, List.dropWhile, hx] at ih' ⊢
    simp only [Prod.mk.injEq] at ih'
    simp [ih'.1, ih'.2]

/-- C7 amended: the version pattern accepts every link target that begins
with a 3- or 4-component dotted numeric version — capturing that leading
version — and rejects a 2-component one. -/
theorem matchVersion_components :
    (∀ (a b c : List Char) (rest : List Char),
      a ≠ [] → b ≠ [] → c ≠ [] →
      (∀ x ∈ a, isPyDigit x = true) → (∀ x ∈ b, isPyDigit x = true) →
      (∀ x ∈ c, isPyDigit x = true) →
      matchVersion (a ++ '.' :: b ++ '.' :: c ++ '/' :: rest) =
        some (a ++ '.' :: b ++ '.' :: c)) ∧
    (∀ (a b c d : List Char) (rest : List Char),
      a ≠ [] → b ≠ [] → c ≠ [] → d ≠ [] →
      (∀ x ∈ a, isPyDigit x = true) → (∀ x ∈ b, isPyDigit x = true) →
      (∀ x ∈ c, isPyDigit x = true) → (∀ x ∈ d, isPyDigit x = true) →
      matchVersion (a ++ '.' :: b ++ '.' :: c ++ '.' :: d ++ '/' :: rest) =
        some (a ++ '.' :: b ++ '.' :: c ++ '.' :: d)) ∧
    (∀ (a b : List Char) (rest : List Char),
      (∀ x ∈ a, isPyDigit x = true) → (∀ x ∈ b, isPyDigit x = true) →
      matchVersion (a ++ '.' :: b ++ '/' :: rest) = none) := by
  refine ⟨?_, ?_, ?_⟩
  · intro a b c rest ha0 hb0 hc0 ha hb hc
    have h1 : spanDigits (a ++ '.' :: (b ++ '.' :: (c ++ '/' :: rest))) =
        (a, '.' :: (b ++ '.' :: (c ++ '/' :: rest))) :=
      spanDigits_append a '.' _ ha (by decide)
    have h2 : spanDigits (b ++ '.' :: (c ++ '/' :: rest)) =
        (b, '.' :: (c ++ '/' :: rest)) := spanDigits_append b '.' _ hb (by decide)
    have h3 : spanDigits (c ++ '/' :: rest) = (c, '/' :: rest) :=
      spanDigits_append c '/' _ hc (by decide)
    simp [matchVersion, h1, h2, h3, ha0, hb0, hc0]
  · intro a b c d rest ha0 hb0 hc0 hd0 ha hb hc hd
    have h1 : spanDigits (a ++ '.' :: (b ++ '.' :: (c ++ '.' :: (d ++ '/' :: rest)))) =
        (a, '.' :: (b ++ '.' :: (c ++ '.' :: (d ++ '/' :: rest)))) :=
      spanDigits_append a '.' _ ha (by decide)
    have h2 : spanDigits (b ++ '.' :: (c ++ '.' :: (d ++ '/' :: rest))) =
        (b, '.' :: (c ++ '.' :: (d ++ '/' :: rest))) :=
      spanDigits_append b '.' _ hb (by decide)
    have h3 : spanDigits (c ++ '.' :: (d ++ '/' :: rest)) =
        (c, '.' :: (d ++ '/' :: rest)) := spanDigits_append c '.' _ hc (by decide)
    have h4 : spanDigits (d ++ '/' :: rest) = (d, '/' :: rest) :=
      spanDigits_append d '/' _ hd (by decide)
    simp [matchVersion, h1, h2, h3, h4, ha0, hb0, hc0, hd0]
  · intro a b rest ha hb
    have h1 : spanDigits (a ++ '.' :: (b ++ '/' :: rest)) =
        (a, '.' :: (b ++ '/' :: rest)) := spanDigits_append a '.' _ ha (by decide)
    have h2 : spanDigits (b ++ '/' :: rest) = (b, '/' :: rest) :=
      spanDigits_append b '/' _ hb (by decide)
    by_cases ha0 : a = []
    · subst ha0
      have h0 : spanDigits ('.' :: (b ++ '/' :: rest)) =
          ([], '.' :: (b ++ '/' :: rest)) :=
        spanDigits_append [] '.' _ (by simp) (by decide)
      simp [matchVersion, h0]
    · simp [matchVersion, h1, h2, ha0]

/-- Witness for `matchVersion_components` at concrete digit runs. -/
theorem matchVersion_components_witness :
    matchVersion (['9', '0'] ++ '.' :: ['1'] ++ '.' :: ['2'] ++ '/' :: []) =
      some (['9', '0'] ++ '.' :: ['1'] ++ '.' :: ['2']) ∧
    matchVersion (['9'] ++ '.' :: ['1'] ++ '.' :: ['2'] ++ '.' :: ['3'] ++ '/' :: []) =
      some (['9'] ++ '.' :: ['1'] ++ '.' :: ['2'] ++ '.' :: ['3']) ∧
    matchVersion (['9', '0'] ++ '.' :: ['1'] ++ '/' :: []) = none :=
  ⟨matchVersion_components.1 ['9', '0'] ['1'] ['2'] [] (by decide) (by decide) (by decide)
      (by decide) (by decide) (by decide),
   matchVersion_components.2.1 ['9'] ['1'] ['2'] ['3'] [] (by decide) (by decide) (by decide)
      (by decide) (by decide) (by decide) (by decide) (by decide),
   matchVersion_components.2.2 ['9', '0'] ['1'] [] (by decide) (by decide)⟩

/- ---- C3: wikitext field extractor ---- -/

theorem drop_takeWhile_length (p : Char → Bool) (l : List Char) :
    l.drop (l.takeWhile p).length = l.dropWhile p := by
  induction l with
  | nil => rfl
  | cons c cs ih =>
    by_cases h : p c
    · simp [List.takeWhile_cons, List.dropWhile_cons, h, ih]
    · simp [List.takeWhile_cons, List.dropWhile_cons, h]

theorem mem_dropWhile (p : Char → Bool) (l : List Char) (x : Char)
    (h : x ∈ l.dropWhile p) : x ∈ l := by
  have := List.takeWhile_append_dropWhile p l
  rw [← this]
  exact List.mem_append_right _ h

theorem dropWhile_dropWhile (p : Char → Bool) (l : List Char) :
    (l.dropWhile p).dropWhile p = l.dropWhile p := by
  induction l with
  | nil => rfl
  | cons c cs ih =>
    by_cases h : p c
    · simp [List.dropWhile_cons, h, ih]
    · simp [List.dropWhile_cons, h]

theorem pyStrip_dropWhile (l : List Char) :
    pyStrip (l.dropWhile isPySpace) = pyStrip l := by
  unfold pyStrip
  rw [dropWhile_dropWhile]

theorem tryDropsFrom_first (k : List Char → Option (List Char)) (n : Nat) (cs : List Char)
    (r : List Char) (h : k (cs.drop n) = some r) : tryDropsFrom k n cs = some r := by
  cases n with
  | zero => simpa using h
  | succ m => simp [tryDropsFrom, h]

theorem wsStarThen_capture (v : List Char) (c : Char) (hc : isPySpace c = true)
    (hvn : '\n' ∉ v) (hvw : ∃ x ∈ v, isPySpace x = false) :
    wsStarThen dotPlusToEol (c :: v) = some (v.dropWhile isPySpace) := by
  have hne : v.dropWhile isPySpace ≠ [] := by
    rw [Ne, List.dropWhile_eq_nil_iff]
    intro hall
    obtain ⟨x, hx, hxf⟩ := hvw
    rw [hall x hx] at hxf
    cases hxf
  have hnl : ∀ x ∈ v.dropWhile isPySpace, ¬ x = '\n' := by
    intro x hx he
    subst he
    exact hvn (mem_dropWhile _ _ _ hx)
  unfold wsStarThen
  rw [show (c :: v).takeWhile isPySpace = c :: v.takeWhile isPySpace from by
    simp [List.takeWhile_cons, hc]]
  apply tryDropsFrom_first
  rw [show (c :: v).drop (c :: v.takeWhile isPySpace).length = v.dropWhile isPySpace from by
    simp [List.length_cons, List.drop_succ_cons, drop_takeWhile_length]]
  unfold dotPlusToEol
  rw [show (v.dropWhile isPySpace).takeWhile (fun c => ¬ c = '\n') = v.dropWhile isPySpace from
    List.takeWhile_eq_self_iff.mpr (by intro x hx; simpa using hnl x hx)]
  simp [hne]

theorem matchFieldAt_line (kc : Char) (ktail : List Char) (hkc : isPySpace kc = false)
    (tail : List Char) (r : List Char)
    (htail : wsStarThen dotPlusToEol tail = some r) :
    matchFieldAt (kc :: ktail) ('|' :: ((kc :: ktail) ++ ' ' :: '=' :: tail)) = some r := by
  have step1 : matchFieldAt (kc :: ktail) ('|' :: ((kc :: ktail) ++ ' ' :: '=' :: tail)) =
      wsStarThen (fun cs2 =>
        if (kc :: ktail).isPrefixOf cs2 then
          wsStarThen (fun cs3 =>
            match cs3 with
            | '=' :: cs4 => wsStarThen dotPlusToEol cs4
            | _ => none) (cs2.drop (kc :: ktail).length)
        else none) ((kc :: ktail) ++ ' ' :: '=' :: tail) := rfl
  rw [step1]
  have htw : ((kc :: ktail) ++ ' ' :: '=' :: tail).takeWhile isPySpace = [] := by
    simp [List.cons_append, List.takeWhile_cons, hkc]
  unfold wsStarThen
  rw [htw]
  simp only [List.length_nil, tryDropsFrom]
  rw [if_pos (by rw [List.isPrefixOf_iff_prefix]; exact List.prefix_append _ _)]
  rw [List.drop_left]
  rw [show (' ' :: '=' :: tail).takeWhile isPySpace = [' '] from by
    simp [List.takeWhile_cons, show isPySpace ' ' = true from by decide,
      show isPySpace '=' = false from by decide]]
  apply tryDropsFrom_first
  simpa using htail

theorem searchField_at_start (key : List Char) (cs : List Char) (r : List Char)
    (h : matchFieldAt key cs = some r) : searchField key cs = some r := by
  unfold searchField
  rw [searchFieldF]
  rw [h]

/-- C3 counterexample: in `|field =\nvalue` the matched line's remainder
after `=` is empty, yet the extractor returns `value` from the following line —
`\s*` crosses the newline — instead of returning absent or the empty
remainder of the matched line. -/
theorem extract_wikitext_field_crosses_lines :
    extract_wikitext_field "|field =\nvalue" ["field"] = some "value" ∧
    extract_wikitext_field "|field =\nvalue" ["field"] ≠ none ∧
    extract_wikitext_field "|field =\nvalue" ["field"] ≠ some "" := by
  refine ⟨by decide, by decide, by decide⟩

/-- C3 amended: for the first matching candidate, the extractor returns the
text captured by `\s*(.+)$` stripped: the whitespace after `=` may cross line
breaks, and the capture is the remainder of the line where the first
non-whitespace character after `=` sits. In particular, for a wikitext line
`|key = v` whose value `v` contains no newline and at least one
non-whitespace character, it returns `v` trimmed, and the same value placed
on the following line (`|key =\nv`) is returned all the same. -/
theorem extract_wikitext_field_line (kc : Char) (ktail : List Char)
    (hkc : isPySpace kc = false) (v : List Char)
    (hvn : '\n' ∉ v) (hvw : ∃ x ∈ v, isPySpace x = false) :
    extract_wikitext_field
        (String.mk ('|' :: ((kc :: ktail) ++ ' ' :: '=' :: ' ' :: v)))
        [String.mk (kc :: ktail)] = some (String.mk (pyStrip v)) ∧
    extract_wikitext_field
        (String.mk ('|' :: ((kc :: ktail) ++ ' ' :: '=' :: '\n' :: v)))
        [String.mk (kc :: ktail)] = some (String.mk (pyStrip v)) := by
  constructor
  · have hcap := wsStarThen_capture v ' ' (by decide) hvn hvw
    have hm := matchFieldAt_line kc ktail hkc (' ' :: v) _ hcap
    have hs := searchField_at_start (kc :: ktail) _ _ hm
    show (match searchField (String.mk (kc :: ktail)).data
        (String.mk ('|' :: ((kc :: ktail) ++ ' ' :: '=' :: ' ' :: v))).data with
      | some r => some (String.mk (pyStrip r))
      | none => extract_wikitext_field _ []) = some (String.mk (pyStrip v))
    rw [show (String.mk (kc :: ktail)).data = kc :: ktail from rfl]
    rw [show (String.mk ('|' :: ((kc :: ktail) ++ ' ' :: '=' :: ' ' :: v))).data =
      '|' :: ((kc :: ktail) ++ ' ' :: '=' :: ' ' :: v) from rfl]
    rw [hs]
    simp [pyStrip_dropWhile]
  · have hcap := wsStarThen_capture v '\n' (by decide) hvn hvw
    have hm := matchFieldAt_line kc ktail hkc ('\n' :: v) _ hcap
    have hs := searchField_at_start (kc :: ktail) _ _ hm
    show (match searchField (String.mk (kc :: ktail)).data
        (String.mk ('|' :: ((kc :: ktail) ++ ' ' :: '=' :: '\n' :: v))).data with
      | some r => some (String.mk (pyStrip r))
      | none => extract_wikitext_field _ []) = some (String.mk (pyStrip v))
    rw [show (String.mk (kc :: ktail)).data = kc :: ktail from rfl]
    rw [show (String.mk ('|' :: ((kc :: ktail) ++ ' ' :: '=' :: '\n' :: v))).data =
      '|' :: ((kc :: ktail) ++ ' ' :: '=' :: '\n' :: v) from rfl]
    rw [hs]
    simp [pyStrip_dropWhile]

/-- Witness for `extract_wikitext_field_line`: the key `field` with the value
`value`, on the same line and on the next line. -/
theorem extract_wikitext_field_line_witness :
    extract_wikitext_field
        (String.mk ('|' :: (('f' :: ['i', 'e', 'l', 'd']) ++ ' ' :: '=' :: ' ' ::
          ['v', 'a', 'l', 'u', 'e'])))
        [String.mk ('f' :: ['i', 'e', 'l', 'd'])] =
      some (String.mk (pyStrip ['v', 'a', 'l', 'u', 'e'])) ∧
    extract_wikitext_field
        (String.mk ('|' :: (('f' :: ['i', 'e', 'l', 'd']) ++ ' ' :: '=' :: '\n' ::
          ['v', 'a', 'l', 'u', 'e'])))
        [String.mk ('f' :: ['i', 'e', 'l', 'd'])] =
      some (String.mk (pyStrip ['v', 'a', 'l', 'u', 'e'])) :=
  extract_wikitext_field_line 'f' ['i', 'e', 'l', 'd'] (by decide)
    ['v', 'a', 'l', 'u', 'e'] (by decide) (by decide)

/- ---- C4: wiki date parser ---- -/

/-- C4: a value matching the start-date template yields the zero-padded
`YYYY-MM-DD` built from its numeric components (`{{Start date|2023|9|5}}`
gives `2023-09-05`); any other value falls back to the general cleaner, with
an empty cleaning result reported as absent. -/
theorem parse_wiki_date_spec :
    parse_wiki_date "{{Start date|2023|9|5}}" = some "2023-09-05" ∧
    (∀ (v : String) (y : List Char) (m d : Nat), searchStartDate v.data = some (y, m, d) →
      parse_wiki_date v = some (formatStartDate y m d)) ∧
    (∀ v : String, searchStartDate v.data = none →
      parse_wiki_date v = (if clean_wikitext v = "" then none else some (clean_wikitext v))) := by
  refine ⟨by decide, ?_, ?_⟩
  · intro v y m d h
    unfold parse_wiki_date
    rw [h]
  · intro v h
    unfold parse_wiki_date
    rw [h]

/-- Witness for `parse_wiki_date_spec` at concrete inputs on both branches. -/
theorem parse_wiki_date_spec_witness :
    parse_wiki_date "{{Start date|2023|12|25}}" = some (formatStartDate ['2', '0', '2', '3'] 12 25) ∧
    parse_wiki_date "plain" = (if clean_wikitext "plain" = "" then none else some (clean_wikitext "plain")) :=
  ⟨parse_wiki_date_spec.2.1 "{{Start date|2023|12|25}}" ['2', '0', '2', '3'] 12 25 (by decide),
   parse_wiki_date_spec.2.2 "plain" (by decide)⟩

/- ---- C8: cleaner output and empty version fields ---- -/

theorem dropWhile_head_false (p : Char → Bool) :
    ∀ (l : List Char) (c : Char) (cs : List Char), List.dropWhile p l = c :: cs → p c = false := by
  intro l
  induction l with
  | nil => intro c cs h; cases h
  | cons x xs ih =>
    intro c cs h
    by_cases hx : p x
    · rw [List.dropWhile_cons_of_pos hx] at h
      exact ih c cs h
    · rw [List.dropWhile_cons_of_neg hx] at h
      injection h with h1 _
      subst h1
      simpa using hx

theorem pyStrip_eq_rdropWhile (l : List Char) :
    pyStrip l = List.rdropWhile isPySpace (l.dropWhile isPySpace) := rfl

theorem pyStrip_idem (l : List Char) : pyStrip (pyStrip l) = pyStrip l := by
  rw [pyStrip_eq_rdropWhile, pyStrip_eq_rdropWhile]
  cases hs : List.rdropWhile isPySpace (l.dropWhile isPySpace) with
  | nil => simp
  | cons c cs =>
    have hpre : List.rdropWhile isPySpace (l.dropWhile isPySpace) <+:
        l.dropWhile isPySpace := List.rdropWhile_prefix _ _
    rw [hs] at hpre
    obtain ⟨t, ht⟩ := hpre
    have hu : l.dropWhile isPySpace = c :: (cs ++ t) := by
      rw [← ht]; simp
    have hc : isPySpace c = false := dropWhile_head_false _ _ _ _ hu
    have hds : (c :: cs).dropWhile isPySpace = c :: cs := by
      rw [List.dropWhile_cons_of_neg (by simp [hc])]
    rw [hds, ← hs, List.rdropWhile_idempotent]

/-- C8 counterexample: the raw field `<ref>x</ref>` is non-empty (truthy), so
the Wikipedia fetcher stores the cleaner's output for it — the empty string —
as the `version`, an empty text value rather than absent. -/
theorem wikipedia_version_empty_string :
    extract_wikitext_field "|latest_release_version = <ref>x</ref>\n"
      ["latest_release_version", "latest_release"] = some "<ref>x</ref>" ∧
    clean_wikitext "<ref>x</ref>" = "" ∧
    (wikipediaChannel "|latest_release_version = <ref>x</ref>\n" "Safari_(web_browser)"
      ["latest_release_version", "latest_release"]
      ["latest_release_date", "latest_release_date"] []).version = some "" := by
  refine ⟨by decide, by decide, by decide⟩

/-- C8 amended: the cleaner returns trimmed text that may be empty; the date
parser maps an empty cleaning result to absent, but the Wikipedia fetchers
guard only on the raw field text and store the cleaner's output as is, so a
non-empty raw value that cleans to empty is stored as an empty `version`. -/
theorem clean_wikitext_empty_and_trimmed :
    (∀ v : String, pyStrip ((clean_wikitext v).data) = (clean_wikitext v).data) ∧
    (∀ v : String, searchStartDate v.data = none → clean_wikitext v = "" →
      parse_wiki_date v = none) ∧
    (∀ (w page : String) (vks dks cks : List String) (raw : String),
      extract_wikitext_field w vks = some raw → raw ≠ "" →
      (wikipediaChannel w page vks dks cks).version = some (clean_wikitext raw)) := by
  refine ⟨?_, ?_, ?_⟩
  · intro v
    show pyStrip (String.mk (pyStrip (strip_code _ _))).data = _
    rw [show (String.mk (pyStrip (strip_code ((subRefSelf (subRefBlocks v.data)).length + 1)
      (subRefSelf (subRefBlocks v.data))))).data = pyStrip (strip_code
      ((subRefSelf (subRefBlocks v.data)).length + 1) (subRefSelf (subRefBlocks v.data)))
      from rfl]
    exact pyStrip_idem _
  · intro v h he
    unfold parse_wiki_date
    rw [h]
    simp [he]
  · intro w page vks dks cks raw hex hraw
    show truthyClean (extract_wikitext_field w vks) = _
    rw [hex]
    simp [truthyClean, hraw]

/-- Witness for `clean_wikitext_empty_and_trimmed` at concrete inputs. -/
theorem clean_wikitext_empty_and_trimmed_witness :
    parse_wiki_date "<ref>x</ref>" = none ∧
    (wikipediaChannel "|latest_release_version = 17.1\n" "Safari_(web_browser)"
      ["latest_release_version"] [] []).version = some (clean_wikitext "17.1") :=
  ⟨clean_wikitext_empty_and_trimmed.2.1 "<ref>x</ref>" (by decide) (by decide),
   clean_wikitext_empty_and_trimmed.2.2 "|latest_release_version = 17.1\n"
     "Safari_(web_browser)" ["latest_release_version"] [] [] "17.1" (by decide) (by decide)⟩

/- ---- C6/C10: Chrome and Edge field handling ---- -/

/-- C6 counterexample: a Chrome milestone entry without the `milestone` key
still yields a present `version_code` — the text `None` — so that missing
upstream field is not represented as absent. -/
theorem fetch_chrome_milestone_not_absent :
    fetch_chrome_channel "Stable" (JVal.arr [JVal.obj [("version", JVal.str "100.0")]]) =
      some ⟨some "100.0", some "None", none,
        "https://chromiumdash.appspot.com/fetch_milestones"⟩ ∧
    ∀ ri, fetch_chrome_channel "Stable"
        (JVal.arr [JVal.obj [("version", JVal.str "100.0")]]) = some ri →
      ri.version_code ≠ none := by
  have h2 : fetch_chrome_channel "Stable"
      (JVal.arr [JVal.obj [("version", JVal.str "100.0")]]) =
      some ⟨some "100.0", some "None", none,
        "https://chromiumdash.appspot.com/fetch_milestones"⟩ := by decide
  refine ⟨h2, ?_⟩
  intro ri h
  rw [h2] at h
  have h3 := Option.some.inj h
  rw [← h3]
  simp

/-- C6 amended: the Chrome and Edge fetchers represent a missing `version`,
`stable_date`/`beta_date`, `ProductVersion` or `PublishedTime` as absent
without raising, but `version_code` is always present in a selected entry —
`str()` of the missing lookup, the text `None`. -/
theorem fetch_missing_fields_absent :
    (∀ (channel : String) (entry : JVal) (fs : List (String × JVal)) (rest : List JVal),
      entry = JVal.obj fs →
      ∃ ri, fetch_chrome_channel channel (JVal.arr (entry :: rest)) = some ri ∧
        (jGet entry "version" = none → ri.version = none) ∧
        (jGet entry (if channel = "Stable" then "stable_date" else "beta_date") = none →
          ri.release_date = none) ∧
        ri.version_code = some (pyStr (jGet entry "milestone"))) ∧
    (∀ (release : JVal) (fs : List (String × JVal)),
      release = JVal.obj fs →
      ∃ ri, fetch_edge_channel [JVal.obj [("Product", JVal.str "Microsoft Edge Stable"),
          ("Releases", JVal.arr [release])]] "Stable" = some ri ∧
        (jGet release "ProductVersion" = none → ri.version = none) ∧
        (jGet release "PublishedTime" = none → ri.release_date = none) ∧
        ri.version_code = some (pyStr (jGet release "ReleaseId"))) := by
  constructor
  · intro channel entry fs rest hobj
    subst hobj
    refine ⟨_, rfl, ?_, ?_, rfl⟩
    · intro h
      simp [jGetStr, h]
    · intro h
      simp [jGetStr, h]
  · intro release fs hobj
    subst hobj
    refine ⟨{ version := jGetStr (JVal.obj fs) "ProductVersion",
              version_code := some (pyStr (jGet (JVal.obj fs) "ReleaseId")),
              release_date := jGetStr (JVal.obj fs) "PublishedTime",
              source := "https://edgeupdates.microsoft.com/api/products?view=enterprise" },
            ?_, ?_, ?_, rfl⟩
    · rfl
    · intro h
      simp [jGetStr, h]
    · intro h
      simp [jGetStr, h]

/-- Witness for `fetch_missing_fields_absent`: Chrome and Edge entries lacking
every optional field. -/
theorem fetch_missing_fields_absent_witness :
    (∃ ri, fetch_chrome_channel "Stable" (JVal.arr [JVal.obj []]) = some ri ∧
      (jGet (JVal.obj []) "version" = none → ri.version = none) ∧
      (jGet (JVal.obj []) (if "Stable" = "Stable" then "stable_date" else "beta_date") = none →
        ri.release_date = none) ∧
      ri.version_code = some (pyStr (jGet (JVal.obj []) "milestone"))) ∧
    (∃ ri, fetch_edge_channel [JVal.obj [("Product", JVal.str "Microsoft Edge Stable"),
        ("Releases", JVal.arr [JVal.obj []])]] "Stable" = some ri ∧
      (jGet (JVal.obj []) "ProductVersion" = none → ri.version = none) ∧
      (jGet (JVal.obj []) "PublishedTime" = none → ri.release_date = none) ∧
      ri.version_code = some (pyStr (jGet (JVal.obj []) "ReleaseId"))) :=
  ⟨fetch_missing_fields_absent.1 "Stable" (JVal.obj []) [] [] rfl,
   fetch_missing_fields_absent.2 (JVal.obj []) [] rfl⟩

/-- C10 counterexample: on a products payload with no Edge channel products
(the empty list), the Edge fetcher emits its placeholder records whose
`version_code` is absent, so `version_code` is not always present. -/
theorem fetch_edge_placeholder_version_code_absent :
    fetch_edge (JVal.arr []) = some
      (⟨none, none, none, "https://edgeupdates.microsoft.com/api/products?view=enterprise"⟩,
       ⟨none, none, none, "https://edgeupdates.microsoft.com/api/products?view=enterprise"⟩) ∧
    ∀ p, fetch_edge (JVal.arr []) = some p → p.1.version_code = none := by
  have h2 : fetch_edge (JVal.arr []) = some
      (⟨none, none, none, "https://edgeupdates.microsoft.com/api/products?view=enterprise"⟩,
       ⟨none, none, none, "https://edgeupdates.microsoft.com/api/products?view=enterprise"⟩) := by
    decide
  refine ⟨h2, ?_⟩
  intro p h
  rw [h2] at h
  rw [← Option.some.inj h]

/-- C10 amended: Chrome's `version_code` is present in every successful
fetch; Edge's is present whenever a release entry is selected — in both
fetchers it is `str()` of the upstream lookup, the text `None` when
`milestone`/`ReleaseId` is missing — while Edge's missing-channel placeholder
record has an absent `version_code`. -/
theorem version_code_presence :
    (∀ (channel : String) (data : JVal) (ri : ReleaseInfo),
      fetch_chrome_channel channel data = some ri → ∃ s, ri.version_code = some s) ∧
    (∀ (products : List JVal) (name : String) (ri : ReleaseInfo),
      fetch_edge_channel products name = some ri →
      ri = ⟨none, none, none,
        "https://edgeupdates.microsoft.com/api/products?view=enterprise"⟩ ∨
      ∃ s, ri.version_code = some s) ∧
    (∀ ri, fetch_chrome_channel "Beta" (JVal.arr [JVal.obj [("version", JVal.str "101.0")]]) =
      some ri → ri.version_code = some "None") ∧
    (∀ ri, fetch_edge_channel [JVal.obj [("Product", JVal.str "Microsoft Edge Beta"),
        ("Releases", JVal.arr [JVal.obj [("ProductVersion", JVal.str "121.0")]])]] "Beta" =
      some ri → ri.version_code = some "None") := by
  refine ⟨?_, ?_, ?_, ?_⟩
  · intro channel data ri h
    cases data with
    | arr l =>
      cases l with
      | nil => simp [fetch_chrome_channel] at h
      | cons entry rest =>
        cases entry with
        | obj fs =>
          simp only [fetch_chrome_channel] at h
          exact ⟨pyStr (jGet (JVal.obj fs) "milestone"), by rw [← Option.some.inj h]⟩
        | null => simp [fetch_chrome_channel] at h
        | bool b => simp [fetch_chrome_channel] at h
        | num n => simp [fetch_chrome_channel] at h
        | str s => simp [fetch_chrome_channel] at h
        | arr l2 => simp [fetch_chrome_channel] at h
    | null => simp [fetch_chrome_channel] at h
    | bool b => simp [fetch_chrome_channel] at h
    | num n => simp [fetch_chrome_channel] at h
    | str s => simp [fetch_chrome_channel] at h
    | obj fs => simp [fetch_chrome_channel] at h
  · intro products name ri h
    cases hfp : findProduct ("Microsoft Edge " ++ name) products with
    | none =>
      have heq : fetch_edge_channel products name = none := by
        unfold fetch_edge_channel; rw [hfp]
      rw [heq] at h
      cases h
    | some found =>
      cases found with
      | none =>
        have heq : fetch_edge_channel products name = some ⟨none, none, none,
            "https://edgeupdates.microsoft.com/api/products?view=enterprise"⟩ := by
          unfold fetch_edge_channel; rw [hfp]
        rw [heq] at h
        left
        exact (Option.some.inj h).symm
      | some cd =>
        right
        have heq : fetch_edge_channel products name = edgeFromProduct cd := by
          unfold fetch_edge_channel; rw [hfp]
        rw [heq] at h
        cases hrel : edgeReleases cd with
        | none =>
          have h2 : edgeFromProduct cd = none := by unfold edgeFromProduct; rw [hrel]
          rw [h2] at h
          cases h
        | some xs =>
          have h2 : edgeFromProduct cd = (if xs.all isJObj then
              match maxByPublishedTime xs with
              | none => none
              | some release =>
                some { version := jGetStr release "ProductVersion"
                       version_code := some (pyStr (jGet release "ReleaseId"))
                       release_date := jGetStr release "PublishedTime"
                       source :=
                        "https://edgeupdates.microsoft.com/api/products?view=enterprise" }
            else none) := by
            unfold edgeFromProduct; rw [hrel]
          rw [h2] at h
          by_cases hall : xs.all isJObj
          · rw [if_pos hall] at h
            cases hmax : maxByPublishedTime xs with
            | none => rw [hmax] at h; cases h
            | some release =>
              rw [hmax] at h
              exact ⟨pyStr (jGet release "ReleaseId"), by rw [← Option.some.inj h]⟩
          · rw [if_neg hall] at h
            cases h
  · intro ri h
    have h2 : fetch_chrome_channel "Beta"
        (JVal.arr [JVal.obj [("version", JVal.str "101.0")]]) =
        some ⟨some "101.0", some "None", none,
          "https://chromiumdash.appspot.com/fetch_milestones"⟩ := by decide
    rw [h2] at h
    rw [← Option.some.inj h]
  · intro ri h
    have h2 : fetch_edge_channel [JVal.obj [("Product", JVal.str "Microsoft Edge Beta"),
        ("Releases", JVal.arr [JVal.obj [("ProductVersion", JVal.str "121.0")]])]] "Beta" =
        some ⟨some "121.0", some "None", none,
          "https://edgeupdates.microsoft.com/api/products?view=enterprise"⟩ := by decide
    rw [h2] at h
    rw [← Option.some.inj h]

/-- Witness for `version_code_presence` at concrete payloads. -/
theorem version_code_presence_witness :
    (∃ s, (ReleaseInfo.mk (some "100.0") (some "None") none
      "https://chromiumdash.appspot.com/fetch_milestones").version_code = some s) ∧
    ((ReleaseInfo.mk none none none
        "https://edgeupdates.microsoft.com/api/products?view=enterprise") =
      ⟨none, none, none, "https://edgeupdates.microsoft.com/api/products?view=enterprise"⟩ ∨
      ∃ s, (ReleaseInfo.mk none none none
        "https://edgeupdates.microsoft.com/api/products?view=enterprise").version_code = some s) ∧
    (ReleaseInfo.mk (some "101.0") (some "None") none
      "https://chromiumdash.appspot.com/fetch_milestones").version_code = some "None" :=
  ⟨version_code_presence.1 "Stable" (JVal.arr [JVal.obj [("version", JVal.str "100.0")]])
      _ (by decide),
   version_code_presence.2.1 [] "Stable" _ (by decide),
   version_code_presence.2.2.1 _ (by decide)⟩

/- ---- C5: ref removal never leaks `<ref` on well-formed input ---- -/

theorem takeWhile_append_stop (p : Char → Bool) (a : List Char) (c : Char) (X : List Char)
    (ha : ∀ x ∈ a, p x = true) (hc : p c = false) :
    (a ++ c :: X).takeWhile p = a ∧ (a ++ c :: X).dropWhile p = c :: X := by
  induction a with
  | nil => simp [List.takeWhile_cons, List.dropWhile_cons, hc]
  | cons x xs ih =>
    have hx : p x = true := ha x (List.mem_cons_self _ _)
    have ih' := ih (fun y hy => ha y (List.mem_cons_of_mem _ hy))
    simp only [List.cons_append, List.takeWhile_cons, List.dropWhile_cons, hx]
    simp [ih'.1, ih'.2]

theorem subScan_fuel (m : List Char → Option Nat) (hpos : ∀ l n, m l = some n → 1 ≤ n) :
    ∀ f1 f2 (cs : List Char), cs.length ≤ f1 → cs.length ≤ f2 →
      subScan m f1 cs = subScan m f2 cs := by
  intro f1
  induction f1 with
  | zero =>
    intro f2 cs h1 h2
    have : cs = [] := List.length_eq_zero.mp (Nat.le_zero.mp h1)
    subst this
    cases f2 <;> rfl
  | succ f1 ih =>
    intro f2 cs h1 h2
    cases cs with
    | nil => cases f2 <;> rfl
    | cons c cs' =>
      cases f2 with
      | zero => simp at h2
      | succ f2 =>
        rw [subScan, subScan]
        cases hm : m (c :: cs') with
        | some n =>
          have hn := hpos _ _ hm
          have hlen : ((c :: cs').drop n).length ≤ f1 := by
            simp only [List.length_drop, List.length_cons]
            simp at h1
            omega
          have hlen2 : ((c :: cs').drop n).length ≤ f2 := by
            simp only [List.length_drop, List.length_cons]
            simp at h2
            omega
          exact ih f2 _ hlen hlen2
        | none =>
          have hlen : cs'.length ≤ f1 := by simp at h1; omega
          have hlen2 : cs'.length ≤ f2 := by simp at h2; omega
          rw [ih f2 _ hlen hlen2]

theorem applySub_nil (m : List Char → Option Nat) : applySub m [] = [] := rfl

theorem applySub_cons_nomatch (m : List Char → Option Nat) (c : Char) (cs : List Char)
    (h : m (c :: cs) = none) : applySub m (c :: cs) = c :: applySub m cs := by
  unfold applySub
  rw [List.length_cons, subScan, h]

theorem applySub_skip (m : List Char → Option Nat) (hpos : ∀ l n, m l = some n → 1 ≤ n)
    (c : Char) (cs : List Char) (n : Nat) (h : m (c :: cs) = some n) :
    applySub m (c :: cs) = applySub m ((c :: cs).drop n) := by
  unfold applySub
  rw [List.length_cons, subScan, h]
  apply subScan_fuel m hpos
  · simp only [List.length_drop, List.length_cons]
    have := hpos _ _ h
    omega
  · exact Nat.le_refl _

theorem applySub_copy (m : List Char → Option Nat)
    (hne : ∀ (c : Char) (cs : List Char), ¬ c = '<' → m (c :: cs) = none) :
    ∀ (seg X : List Char), (∀ x ∈ seg, ¬ x = '<') →
      applySub m (seg ++ X) = seg ++ applySub m X := by
  intro seg
  induction seg with
  | nil => intro X h; rfl
  | cons s seg' ih =>
    intro X h
    have hs : ¬ s = '<' := (h s (List.mem_cons_self _ _))
    rw [List.cons_append, applySub_cons_nomatch m _ _ (hne _ _ hs),
      ih X (fun y hy => h y (List.mem_cons_of_mem _ hy))]
    rfl

theorem refBlockAt_none_of_ne (c : Char) (cs : List Char) (h : ¬ c = '<') :
    refBlockAt (c :: cs) = none := by
  unfold refBlockAt
  rw [if_neg (by simp [List.isPrefixOf]; intro he; exact absurd he.symm h)]

theorem refSelfCloseAt_none_of_ne (c : Char) (cs : List Char) (h : ¬ c = '<') :
    refSelfCloseAt (c :: cs) = none := by
  unfold refSelfCloseAt
  rw [if_neg (by simp [List.isPrefixOf]; intro he; exact absurd he.symm h)]

theorem refBlockAt_pos : ∀ (l : List Char) (n : Nat), refBlockAt l = some n → 1 ≤ n := by
  intro l n h
  unfold refBlockAt at h
  split at h
  · split at h
    · split at h
      · injection h with h1
        omega
      · cases h
    · cases h
  · cases h

theorem refSelfCloseAt_pos : ∀ (l : List Char) (n : Nat), refSelfCloseAt l = some n → 1 ≤ n := by
  intro l n h
  unfold refSelfCloseAt at h
  split at h
  · split at h
    · injection h with h1
      omega
    · cases h
  · cases h

theorem isPrefixOf_append_self (l X : List Char) : l.isPrefixOf (l ++ X) = true := by
  rw [List.isPrefixOf_iff_prefix]
  exact List.prefix_append l X

theorem findClose_cons_ne (x : Char) (l : List Char) (hx : ¬ x = '<') :
    findClose (x :: l) = (findClose l).map (· + 1) := by
  rw [findClose]
  rw [if_neg (by simp [List.isPrefixOf]; intro he; exact absurd he.symm hx)]

theorem findClose_seg (seg : List Char) (h : ∀ x ∈ seg, ¬ x = '<') (l : List Char) :
    findClose (seg ++ l) = (findClose l).map (fun j => j + seg.length) := by
  induction seg with
  | nil => simp
  | cons s seg' ih =>
    have hs : ¬ s = '<' := h s (List.mem_cons_self _ _)
    rw [List.cons_append, findClose_cons_ne s _ hs,
      ih (fun y hy => h y (List.mem_cons_of_mem _ hy))]
    cases findClose l with
    | none => rfl
    | some j => simp [List.length_cons]; omega

theorem findClose_at_close (l : List Char) :
    findClose ("</ref>".data ++ l) = some 0 := by
  rw [show "</ref>".data ++ l = '<' :: ("/ref>".data ++ l) from rfl]
  unfold findClose
  rw [if_pos]
  exact isPrefixOf_append_self _ _

theorem findClose_body (body : List Char) (h : ∀ x ∈ body, ¬ x = '<') (l : List Char) :
    findClose (body ++ "</ref>".data ++ l) = some body.length := by
  rw [List.append_assoc, findClose_seg body h, findClose_at_close]
  simp

theorem refBlockAt_block (attrs body cs : List Char)
    (hattrs : ∀ x ∈ attrs, ¬ x = '>') (hbody : ∀ x ∈ body, ¬ x = '<') :
    refBlockAt ("<ref".data ++ attrs ++ '>' :: body ++ "</ref>".data ++ cs) =
      some (4 + attrs.length + 1 + body.length + 6) := by
  have hstop := takeWhile_append_stop (fun c => ¬ c = '>') attrs '>'
    (body ++ "</ref>".data ++ cs) (by intro x hx; simpa using hattrs x hx) (by simp)
  have hdata : "<ref".data = ['<', 'r', 'e', 'f'] := rfl
  have hdrop : ("<ref".data ++ attrs ++ '>' :: body ++ "</ref>".data ++ cs).drop 4 =
      attrs ++ '>' :: (body ++ "</ref>".data ++ cs) := by
    rw [hdata]
    simp
  have hpre : ("<ref".data).isPrefixOf
      ("<ref".data ++ attrs ++ '>' :: body ++ "</ref>".data ++ cs) = true := by
    rw [hdata]
    simp [List.isPrefixOf]
  unfold refBlockAt
  rw [if_pos hpre, hdrop, hstop.2, hstop.1]
  show (match findClose (body ++ "</ref>".data ++ cs) with
    | some j => some (4 + attrs.length + 1 + j + 6)
    | none => none) = some (4 + attrs.length + 1 + body.length + 6)
  rw [findClose_body body hbody cs]

theorem ref_open_data : "<ref".data = ['<', 'r', 'e', 'f'] := rfl

theorem ref_close_data : "</ref>".data = ['<', '/', 'r', 'e', 'f', '>'] := rfl

theorem drop_append_plus (l1 l2 : List Char) (n : Nat) :
    (l1 ++ l2).drop (l1.length + n) = l2.drop n := by
  induction l1 with
  | nil => simp
  | cons x xs ih => simp [Nat.succ_add, ih]

theorem drop_append_len (l1 l2 : List Char) (n : Nat) (h : l1.length = n) :
    (l1 ++ l2).drop n = l2 := by
  subst h
  simp [drop_append_plus l1 l2 0]

theorem applySub_skip_any (m : List Char → Option Nat) (hpos : ∀ l n, m l = some n → 1 ≤ n)
    (hnil : m [] = none) (l : List Char) (n : Nat) (h : m l = some n) :
    applySub m l = applySub m (l.drop n) := by
  cases l with
  | nil => rw [hnil] at h; cases h
  | cons c cs => exact applySub_skip m hpos c cs n h

theorem refSelfCloseAt_self (attrs cs : List Char)
    (hattrs : ∀ x ∈ attrs, ¬ x = '/' ∧ ¬ x = '>') :
    refSelfCloseAt ("<ref".data ++ attrs ++ '/' :: '>' :: cs) = some (4 + attrs.length + 2) := by
  have hstop := takeWhile_append_stop (fun c => ¬ c = '/' ∧ ¬ c = '>') attrs '/' ('>' :: cs)
    (by intro x hx; simpa using hattrs x hx) (by simp)
  have hdrop : ("<ref".data ++ attrs ++ '/' :: '>' :: cs).drop 4 =
      attrs ++ '/' :: '>' :: cs := by
    rw [ref_open_data]
    simp
  have hpre : ("<ref".data).isPrefixOf
      ("<ref".data ++ attrs ++ '/' :: '>' :: cs) = true := by
    rw [ref_open_data]
    simp [List.isPrefixOf]
  unfold refSelfCloseAt
  rw [if_pos hpre, hdrop, hstop.2, hstop.1]
  rfl

theorem refBlockAt_slf (attrs cs : List Char) (hattrs : ∀ x ∈ attrs, ¬ x = '>') :
    refBlockAt ("<ref".data ++ attrs ++ '/' :: '>' :: cs) =
      (findClose cs).map (fun j => 4 + (attrs ++ ['/']).length + 1 + j + 6) := by
  have hstop := takeWhile_append_stop (fun c => ¬ c = '>') (attrs ++ ['/']) '>' cs
    (by
      intro x hx
      rcases List.mem_append.mp hx with h1 | h1
      · simpa using hattrs x h1
      · simp at h1
        subst h1
        decide)
    (by simp)
  have hdrop : ("<ref".data ++ attrs ++ '/' :: '>' :: cs).drop 4 =
      (attrs ++ ['/']) ++ '>' :: cs := by
    rw [ref_open_data]
    simp
  have hpre : ("<ref".data).isPrefixOf
      ("<ref".data ++ attrs ++ '/' :: '>' :: cs) = true := by
    rw [ref_open_data]
    simp [List.isPrefixOf]
  unfold refBlockAt
  rw [if_pos hpre, hdrop, hstop.2, hstop.1]
  show (match findClose cs with
    | some j => some (4 + (attrs ++ ['/']).length + 1 + j + 6)
    | none => none) = (findClose cs).map (fun j => 4 + (attrs ++ ['/']).length + 1 + j + 6)
  cases findClose cs <;> rfl

theorem findClose_drop_good {cs : List Char} (h : RefGood cs) :
    ∀ (j : Nat), findClose cs = some j → RefGood (cs.drop (j + 6)) := by
  induction h with
  | nil =>
    intro j hj
    simp [findClose] at hj
  | chr hc hrest ih =>
    rename_i c cs'
    intro j hj
    rw [findClose_cons_ne c cs' hc] at hj
    cases hfc : findClose cs' with
    | none => rw [hfc] at hj; cases hj
    | some j1 =>
      rw [hfc] at hj
      have hjv : j = j1 + 1 := by
        simp at hj
        omega
      subst hjv
      rw [show j1 + 1 + 6 = (j1 + 6) + 1 from by omega, List.drop_succ_cons]
      exact ih j1 hfc
  | blk hattrs hbody hrest ih =>
    rename_i attrs body cs'
    intro j hj
    have hW : ("<ref".data ++ attrs ++ '>' :: body ++ "</ref>".data ++ cs' : List Char) =
        '<' :: (('r' :: 'e' :: 'f' :: (attrs ++ ['>'] ++ body)) ++ ("</ref>".data ++ cs')) := by
      rw [ref_open_data]
      simp
    have hseg : ∀ x ∈ ('r' :: 'e' :: 'f' :: (attrs ++ ['>'] ++ body)), ¬ x = '<' := by
      intro x hx
      simp at hx
      rcases hx with h1 | h1 | h1 | h1 | h1 | h1
      · subst h1; decide
      · subst h1; decide
      · subst h1; decide
      · exact (hattrs x h1).1
      · subst h1; decide
      · exact hbody x h1
    rw [hW, findClose] at hj
    rw [if_neg (by rw [ref_close_data]; simp [List.isPrefixOf])] at hj
    rw [findClose_seg _ hseg _, findClose_at_close] at hj
    have hjv : j = 4 + attrs.length + body.length + 1 := by
      simp [List.length_cons, List.length_append] at hj
      omega
    subst hjv
    have hdropW : (("<ref".data ++ attrs ++ '>' :: body ++ "</ref>".data ++ cs' : List Char)).drop
        (4 + attrs.length + body.length + 1 + 6) = cs' := by
      rw [show ("<ref".data ++ attrs ++ '>' :: body ++ "</ref>".data ++ cs' : List Char) =
          ("<ref".data ++ attrs ++ '>' :: body ++ "</ref>".data) ++ cs' from by simp]
      apply drop_append_len
      rw [ref_open_data, ref_close_data]
      simp [List.length_append, List.length_cons]
      omega
    rw [hdropW]
    exact hrest
  | slf hattrs hrest ih =>
    rename_i attrs cs'
    intro j hj
    have hW : ("<ref".data ++ attrs ++ '/' :: '>' :: cs' : List Char) =
        '<' :: (('r' :: 'e' :: 'f' :: (attrs ++ ['/', '>'])) ++ cs') := by
      rw [ref_open_data]
      simp
    have hseg : ∀ x ∈ ('r' :: 'e' :: 'f' :: (attrs ++ ['/', '>'])), ¬ x = '<' := by
      intro x hx
      simp at hx
      rcases hx with h1 | h1 | h1 | h1 | h1 | h1
      · subst h1; decide
      · subst h1; decide
      · subst h1; decide
      · exact (hattrs x h1).1
      · subst h1; decide
      · subst h1; decide
    rw [hW, findClose] at hj
    rw [if_neg (by rw [ref_close_data]; simp [List.isPrefixOf])] at hj
    rw [findClose_seg _ hseg _] at hj
    cases hfc : findClose cs' with
    | none => rw [hfc] at hj; cases hj
    | some j1 =>
      rw [hfc] at hj
      have hjv : j = j1 + (5 + attrs.length) + 1 := by
        simp [List.length_cons, List.length_append] at hj
        omega
      subst hjv
      have hdropW : (("<ref".data ++ attrs ++ '/' :: '>' :: cs' : List Char)).drop
          (j1 + (5 + attrs.length) + 1 + 6) = cs'.drop (j1 + 6) := by
        rw [show ("<ref".data ++ attrs ++ '/' :: '>' :: cs' : List Char) =
            ("<ref".data ++ attrs ++ ['/', '>']) ++ cs' from by simp]
        rw [show j1 + (5 + attrs.length) + 1 + 6 =
            ("<ref".data ++ attrs ++ ['/', '>']).length + (j1 + 6) from by
          rw [ref_open_data]
          simp [List.length_append, List.length_cons]
          omega]
        exact drop_append_plus _ _ _
      rw [hdropW]
      exact ih j1 hfc

theorem subRefBlocks_selfgood : ∀ (n : Nat) (cs : List Char), cs.length ≤ n → RefGood cs →
    SelfGood (subRefBlocks cs) := by
  intro n
  induction n with
  | zero =>
    intro cs hlen _
    have hnil : cs = [] := List.length_eq_zero.mp (Nat.le_zero.mp hlen)
    subst hnil
    exact SelfGood.nil
  | succ n ih =>
    intro cs hlen hgood
    cases hgood with
    | nil => exact SelfGood.nil
    | chr hc hrest =>
      rename_i c cs'
      have hl : cs'.length ≤ n := by
        simp [List.length_cons] at hlen
        omega
      rw [show subRefBlocks (c :: cs') = c :: subRefBlocks cs' from
        applySub_cons_nomatch refBlockAt c cs' (refBlockAt_none_of_ne c cs' hc)]
      exact SelfGood.chr hc (ih cs' hl hrest)
    | blk hattrs hbody hrest =>
      rename_i attrs body cs'
      have hmatch := refBlockAt_block attrs body cs' (fun x hx => (hattrs x hx).2) hbody
      rw [show subRefBlocks ("<ref".data ++ attrs ++ '>' :: body ++ "</ref>".data ++ cs') =
          subRefBlocks (("<ref".data ++ attrs ++ '>' :: body ++ "</ref>".data ++ cs').drop
            (4 + attrs.length + 1 + body.length + 6)) from
        applySub_skip_any refBlockAt refBlockAt_pos rfl _ _ hmatch]
      have hdropW : ("<ref".data ++ attrs ++ '>' :: body ++ "</ref>".data ++ cs' : List Char).drop
          (4 + attrs.length + 1 + body.length + 6) = cs' := by
        rw [show ("<ref".data ++ attrs ++ '>' :: body ++ "</ref>".data ++ cs' : List Char) =
            ("<ref".data ++ attrs ++ '>' :: body ++ "</ref>".data) ++ cs' from by simp]
        apply drop_append_len
        rw [ref_open_data, ref_close_data]
        simp [List.length_append, List.length_cons]
        omega
      rw [hdropW]
      have hl : cs'.length ≤ n := by
        rw [ref_open_data, ref_close_data] at hlen
        simp [List.length_append, List.length_cons] at hlen
        omega
      exact ih cs' hl hrest
    | slf hattrs hrest =>
      rename_i attrs cs'
      have hblk := refBlockAt_slf attrs cs' (fun x hx => (hattrs x hx).2.1)
      have hl : cs'.length ≤ n := by
        rw [ref_open_data] at hlen
        simp [List.length_append, List.length_cons] at hlen
        omega
      cases hfc : findClose cs' with
      | none =>
        have hnone : refBlockAt ("<ref".data ++ attrs ++ '/' :: '>' :: cs') = none := by
          rw [hblk, hfc]
          rfl
        have hW : ("<ref".data ++ attrs ++ '/' :: '>' :: cs' : List Char) =
            '<' :: (('r' :: 'e' :: 'f' :: (attrs ++ ['/', '>'])) ++ cs') := by
          rw [ref_open_data]
          simp
        have hseg : ∀ x ∈ ('r' :: 'e' :: 'f' :: (attrs ++ ['/', '>'])), ¬ x = '<' := by
          intro x hx
          simp at hx
          rcases hx with h1 | h1 | h1 | h1 | h1 | h1
          · subst h1; decide
          · subst h1; decide
          · subst h1; decide
          · exact (hattrs x h1).1
          · subst h1; decide
          · subst h1; decide
        rw [hW] at hnone
        rw [hW]
        rw [show subRefBlocks ('<' :: (('r' :: 'e' :: 'f' :: (attrs ++ ['/', '>'])) ++ cs')) =
            '<' :: subRefBlocks (('r' :: 'e' :: 'f' :: (attrs ++ ['/', '>'])) ++ cs') from
          applySub_cons_nomatch refBlockAt _ _ hnone]
        rw [show subRefBlocks (('r' :: 'e' :: 'f' :: (attrs ++ ['/', '>'])) ++ cs') =
            ('r' :: 'e' :: 'f' :: (attrs ++ ['/', '>'])) ++ subRefBlocks cs' from
          applySub_copy refBlockAt refBlockAt_none_of_ne _ cs' hseg]
        rw [show ('<' :: (('r' :: 'e' :: 'f' :: (attrs ++ ['/', '>'])) ++ subRefBlocks cs') :
            List Char) =
            "<ref".data ++ attrs ++ '/' :: '>' :: subRefBlocks cs' from by
          rw [ref_open_data]
          simp]
        exact SelfGood.slf hattrs (ih cs' hl hrest)
      | some j =>
        have hsome : refBlockAt ("<ref".data ++ attrs ++ '/' :: '>' :: cs') =
            some (4 + (attrs ++ ['/']).length + 1 + j + 6) := by
          rw [hblk, hfc]
          rfl
        rw [show subRefBlocks ("<ref".data ++ attrs ++ '/' :: '>' :: cs') =
            subRefBlocks (("<ref".data ++ attrs ++ '/' :: '>' :: cs').drop
              (4 + (attrs ++ ['/']).length + 1 + j + 6)) from
          applySub_skip_any refBlockAt refBlockAt_pos rfl _ _ hsome]
        have hdropW : ("<ref".data ++ attrs ++ '/' :: '>' :: cs' : List Char).drop
            (4 + (attrs ++ ['/']).length + 1 + j + 6) = cs'.drop (j + 6) := by
          rw [show ("<ref".data ++ attrs ++ '/' :: '>' :: cs' : List Char) =
              ("<ref".data ++ attrs ++ ['/', '>']) ++ cs' from by simp]
          rw [show 4 + (attrs ++ ['/']).length + 1 + j + 6 =
              ("<ref".data ++ attrs ++ ['/', '>']).length + (j + 6) from by
            rw [ref_open_data]
            simp [List.length_append, List.length_cons]
            omega]
          exact drop_append_plus _ _ _
        rw [hdropW]
        have hgood2 : RefGood (cs'.drop (j + 6)) := findClose_drop_good hrest j hfc
        have hl2 : (cs'.drop (j + 6)).length ≤ n := by
          simp [List.length_drop]
          omega
        exact ih _ hl2 hgood2

theorem subRefSelf_no_lt {cs : List Char} (h : SelfGood cs) :
    ∀ x ∈ subRefSelf cs, ¬ x = '<' := by
  induction h with
  | nil =>
    intro x hx
    simp [subRefSelf, applySub, subScan] at hx
  | chr hc hrest ih =>
    rename_i c cs'
    intro x hx
    rw [show subRefSelf (c :: cs') = c :: subRefSelf cs' from
      applySub_cons_nomatch refSelfCloseAt c cs' (refSelfCloseAt_none_of_ne c cs' hc)] at hx
    rcases List.mem_cons.mp hx with h1 | h1
    · subst h1; exact hc
    · exact ih x h1
  | slf hattrs hrest ih =>
    rename_i attrs cs'
    intro x hx
    have hself := refSelfCloseAt_self attrs cs'
      (fun y hy => ⟨(hattrs y hy).2.2, (hattrs y hy).2.1⟩)
    rw [show subRefSelf ("<ref".data ++ attrs ++ '/' :: '>' :: cs') =
        subRefSelf (("<ref".data ++ attrs ++ '/' :: '>' :: cs').drop (4 + attrs.length + 2)) from
      applySub_skip_any refSelfCloseAt refSelfCloseAt_pos rfl _ _ hself] at hx
    rw [show ("<ref".data ++ attrs ++ '/' :: '>' :: cs' : List Char).drop
        (4 + attrs.length + 2) = cs' from by
      rw [show ("<ref".data ++ attrs ++ '/' :: '>' :: cs' : List Char) =
          ("<ref".data ++ attrs ++ ['/', '>']) ++ cs' from by simp]
      apply drop_append_len
      rw [ref_open_data]
      simp [List.length_append, List.length_cons]
      omega] at hx
    exact ih x hx

theorem mem_dropAfterSub (pat : List Char) :
    ∀ (l : List Char) (x : Char), x ∈ dropAfterSub pat l → x ∈ l := by
  intro l
  induction l with
  | nil =>
    intro x hx
    simp [dropAfterSub] at hx
  | cons c cs ih =>
    intro x hx
    rw [dropAfterSub] at hx
    split at hx
    · exact List.mem_of_mem_drop hx
    · exact List.mem_cons_of_mem _ (ih x hx)

theorem mem_takeUntilSub (pat : List Char) :
    ∀ (l : List Char) (x : Char), x ∈ takeUntilSub pat l → x ∈ l := by
  intro l
  induction l with
  | nil =>
    intro x hx
    simp [takeUntilSub] at hx
  | cons c cs ih =>
    intro x hx
    rw [takeUntilSub] at hx
    split at hx
    · simp at hx
    · rcases List.mem_cons.mp hx with h1 | h1
      · subst h1; exact List.mem_cons_self _ _
      · exact List.mem_cons_of_mem _ (ih x h1)

theorem mem_afterFirstBar (l : List Char) (x : Char) (hx : x ∈ afterFirstBar l) : x ∈ l := by
  unfold afterFirstBar at hx
  split at hx
  · exact (List.dropWhile_sublist _).mem (List.mem_of_mem_drop hx)
  · exact hx

theorem strip_code_mem : ∀ (fuel : Nat) (l : List Char) (x : Char),
    x ∈ strip_code fuel l → x ∈ l := by
  intro fuel
  induction fuel with
  | zero =>
    intro l x hx
    simp [strip_code] at hx
  | succ fuel ih =>
    intro l x hx
    cases l with
    | nil => simp [strip_code] at hx
    | cons c cs =>
      rw [strip_code] at hx
      split at hx
      · exact List.mem_cons_of_mem _
          (List.mem_of_mem_drop (mem_dropAfterSub _ _ x (ih _ x hx)))
      · split at hx
        · rcases List.mem_append.mp hx with h1 | h1
          · exact List.mem_cons_of_mem _
              (List.mem_of_mem_drop (mem_takeUntilSub _ _ x (mem_afterFirstBar _ x h1)))
          · exact List.mem_cons_of_mem _
              (List.mem_of_mem_drop (mem_dropAfterSub _ _ x (ih _ x h1)))
        · split at hx
          · exact List.mem_cons_of_mem _ (List.mem_of_mem_drop (ih _ x hx))
          · rcases List.mem_cons.mp hx with h1 | h1
            · subst h1; exact List.mem_cons_self _ _
            · exact List.mem_cons_of_mem _ (ih _ x h1)

theorem pyStrip_mem (l : List Char) (x : Char) (hx : x ∈ pyStrip l) : x ∈ l := by
  unfold pyStrip at hx
  rw [List.mem_reverse] at hx
  have h1 := (List.dropWhile_sublist _).mem hx
  rw [List.mem_reverse] at h1
  exact (List.dropWhile_sublist _).mem h1

theorem containsSub_eq_false (c0 : Char) (pat : List Char) :
    ∀ (l : List Char), (∀ x ∈ l, ¬ x = c0) → containsSub (c0 :: pat) l = false := by
  intro l
  induction l with
  | nil => intro _; rfl
  | cons c cs ih =>
    intro h
    have hc : ¬ c = c0 := h c (List.mem_cons_self _ _)
    rw [containsSub]
    have hpre : (c0 :: pat).isPrefixOf (c :: cs) = false := by
      cases hbe : c0 == c with
      | false => simp [List.isPrefixOf, hbe]
      | true => exact absurd (eq_of_beq hbe).symm hc
    rw [hpre, ih (fun y hy => h y (List.mem_cons_of_mem _ hy))]
    rfl

/-- C5: for a field value in which every `<` opens a well-formed
`<ref ...>...</ref>` block or self-closing `<ref .../>` tag, the cleaner
output of `_clean_wikitext` never contains `<ref`. (On arbitrary values the
claim is false: see `clean_wikitext_ref_leak`.) -/
theorem clean_wikitext_no_ref (value : String) (h : RefGood value.data) :
    containsSub ("<ref".data) ((clean_wikitext value).data) = false := by
  have h1 : SelfGood (subRefBlocks value.data) :=
    subRefBlocks_selfgood value.data.length value.data (Nat.le_refl _) h
  have h2 : ∀ x ∈ subRefSelf (subRefBlocks value.data), ¬ x = '<' := subRefSelf_no_lt h1
  have h3 : ∀ x ∈ (clean_wikitext value).data, ¬ x = '<' := by
    intro x hx
    rw [show (clean_wikitext value).data =
        pyStrip (strip_code ((subRefSelf (subRefBlocks value.data)).length + 1)
          (subRefSelf (subRefBlocks value.data))) from rfl] at hx
    exact h2 x (strip_code_mem _ _ x (pyStrip_mem _ x hx))
  rw [show ("<ref".data) = '<' :: "ref".data from rfl]
  exact containsSub_eq_false '<' ("ref".data) _ h3

/-- C5 counterexample: the raw claim fails on a value that contains a
well-formed `<ref>...</ref>` block followed by a dangling `<ref`: the block
is removed, but the cleaner output is exactly `<ref`. -/
theorem clean_wikitext_ref_leak :
    containsSub ("<ref>x</ref>".data) ("<ref>x</ref><ref".data) = true ∧
    clean_wikitext "<ref>x</ref><ref" = "<ref" ∧
    containsSub ("<ref".data) ((clean_wikitext "<ref>x</ref><ref").data) = true := by
  refine ⟨by decide, by decide, by decide⟩

/-- Witness for `clean_wikitext_no_ref` at a concrete well-formed value. -/
theorem clean_wikitext_no_ref_witness :
    containsSub ("<ref".data) ((clean_wikitext "a<ref x>y</ref>b<ref z/>c").data) = false := by
  apply clean_wikitext_no_ref
  rw [show ("a<ref x>y</ref>b<ref z/>c".data) =
      'a' :: "<ref".data ++ " x".data ++ '>' :: "y".data ++ "</ref>".data ++
        ('b' :: "<ref".data ++ " z".data ++ '/' :: '>' :: 'c' :: []) from rfl]
  exact RefGood.chr (by decide)
    (RefGood.blk (by decide) (by decide)
      (RefGood.chr (by decide)
        (RefGood.slf (by decide) (RefGood.chr (by decide) RefGood.nil))))





